import Mathlib

/-!
Shallow embedding of the VoiceAI backend core (appointment tool executor,
Redis-backed conversation history, websocket agent loop, and the LLM proxy
text-tool-call parser), translated from `backend/app/services/tools/executor.py`,
`backend/app/core/session_manager.py`, `backend/app/api/voice.py` and
`backend/app/api/llm_proxy.py`, together with proofs of the specified
properties.

External effects are made explicit: the PostgreSQL appointment table is a
`Store` value threaded through the operations, `datetime.now()` is an `Env`
parameter, the LLM is an oracle function, and Redis lists are Lean lists.
-/

namespace VoiceAI

/-! ## Calendar dates (model of Python `datetime` restricted to the date part)

The executor only ever uses `datetime` values through `strftime`, date
comparison, `timedelta(days=n)` addition and `weekday()`, so a civil date
triple suffices. `datetime.now()` is passed in as `Env.today`.
-/

structure Date where
  year : Nat
  month : Nat
  day : Nat
deriving DecidableEq, Repr

def isLeapYear (y : Nat) : Bool :=
  y % 4 == 0 && (y % 100 != 0 || y % 400 == 0)

def daysInMonth (y m : Nat) : Nat :=
  if m == 2 then (if isLeapYear y then 29 else 28)
  else if m == 4 || m == 6 || m == 9 || m == 11 then 30
  else 31

def Date.nextDay (d : Date) : Date :=
  if d.day < daysInMonth d.year d.month then { d with day := d.day + 1 }
  else if d.month < 12 then { year := d.year, month := d.month + 1, day := 1 }
  else { year := d.year + 1, month := 1, day := 1 }

/-- `today + timedelta(days=n)`. -/
def Date.addDays : Date → Nat → Date
  | d, 0 => d
  | d, n + 1 => Date.addDays d.nextDay n

/-- Lexicographic strict order on dates (Python `datetime` comparison,
date components). -/
def dateLt (a b : Date) : Bool :=
  a.year < b.year ||
    (a.year == b.year &&
      (a.month < b.month || (a.month == b.month && a.day < b.day)))

def dateLe (a b : Date) : Bool :=
  dateLt a b || a == b

/-- Sakamoto's method; result 0 = Sunday. -/
def dowSunday (d : Date) : Nat :=
  let t : List Nat := [0, 3, 2, 5, 0, 3, 5, 1, 4, 6, 2, 4]
  let y := if d.month < 3 then d.year - 1 else d.year
  (((y + y / 4) - y / 100) + y / 400 + t.getD (d.month - 1) 0 + d.day) % 7

/-- Python `date.weekday()`: 0 = Monday, ..., 6 = Sunday. -/
def pyWeekday (d : Date) : Nat :=
  (dowSunday d + 6) % 7

def monthNamesFull : List String :=
  ["january", "february", "march", "april", "may", "june",
   "july", "august", "september", "october", "november", "december"]

def monthNamesAbbr : List String :=
  ["jan", "feb", "mar", "apr", "may", "jun", "jul", "aug", "sep", "oct", "nov", "dec"]

def monthNameDisplay : List String :=
  ["January", "February", "March", "April", "May", "June",
   "July", "August", "September", "October", "November", "December"]

def weekdayNameDisplay : List String :=
  ["Monday", "Tuesday", "Wednesday", "Thursday", "Friday", "Saturday", "Sunday"]

/-- Zero padding to two digits, as Python `%02d` / `strftime` field padding. -/
def pad2 (n : Nat) : String :=
  if n < 10 then "0" ++ toString n else toString n

def pad4 (n : Nat) : String :=
  if n < 10 then "000" ++ toString n
  else if n < 100 then "00" ++ toString n
  else if n < 1000 then "0" ++ toString n
  else toString n

/-- `strftime("%Y-%m-%d")`. -/
def formatYMD (d : Date) : String :=
  pad4 d.year ++ "-" ++ pad2 d.month ++ "-" ++ pad2 d.day

/-- `strftime("%A, %B %d, %Y")`. -/
def formatDisplay (d : Date) : String :=
  weekdayNameDisplay.getD (pyWeekday d) "" ++ ", " ++
    monthNameDisplay.getD (d.month - 1) "" ++ " " ++ pad2 d.day ++ ", " ++ toString d.year

/-- `strftime("%A, %B %d")` (used in the booking confirmation message). -/
def formatDisplayShort (d : Date) : String :=
  weekdayNameDisplay.getD (pyWeekday d) "" ++ ", " ++
    monthNameDisplay.getD (d.month - 1) "" ++ " " ++ pad2 d.day

/-! ## String helpers mirroring the Python string operations used

They are implemented structurally over `List Char` so that every operation
evaluates by kernel reduction. -/

def startsWithList : List Char → List Char → Bool
  | [], _ => true
  | _ :: _, [] => false
  | p :: ps, c :: cs => c == p && startsWithList ps cs

/-- Python `\s` (`[ \t\n\r\f\v]`). -/
def pyIsSpace (c : Char) : Bool :=
  match c with
  | ' ' | '\t' | '\n' | '\r' | '\x0b' | '\x0c' => true
  | _ => false

/-- Python `str.strip()`. -/
def pyStrip (s : String) : String :=
  String.mk (((s.toList.dropWhile pyIsSpace).reverse.dropWhile pyIsSpace).reverse)

/-- Python `str.lower()` (ASCII inputs). -/
def toLowerStr (s : String) : String :=
  String.mk (s.toList.map Char.toLower)

def containsList (needle : List Char) : List Char → Bool
  | [] => needle.isEmpty
  | c :: cs => startsWithList needle (c :: cs) || containsList needle cs

/-- Python `needle in haystack` substring test. -/
def substrOf (needle hay : String) : Bool :=
  containsList needle.toList hay.toList

/-- Python `str.replace(pat, rep)`: all non-overlapping occurrences, left to
right. The `skip` counter walks past the remainder of a match one character
at a time, keeping the recursion structural on the text. -/
def listReplaceA (pat rep : List Char) : Nat → List Char → List Char
  | _, [] => []
  | skip + 1, _ :: cs => listReplaceA pat rep skip cs
  | 0, c :: cs =>
    match pat with
    | [] => c :: listReplaceA pat rep 0 cs
    | _ :: prest =>
      if startsWithList pat (c :: cs) then
        rep ++ listReplaceA pat rep prest.length cs
      else c :: listReplaceA pat rep 0 cs

def listReplace (pat rep l : List Char) : List Char :=
  listReplaceA pat rep 0 l

def strReplace (s pat rep : String) : String :=
  String.mk (listReplace pat.toList rep.toList s.toList)

def consHead (c : Char) : List (List Char) → List (List Char)
  | [] => [[c]]
  | g :: gs => (c :: g) :: gs

/-- Python `str.split(sep)` with a nonempty separator (also the behaviour of
`String.splitOn`). -/
def listSplitOnA (sep : List Char) : Nat → List Char → List (List Char)
  | _, [] => [[]]
  | skip + 1, _ :: cs => listSplitOnA sep skip cs
  | 0, c :: cs =>
    match sep with
    | [] => consHead c (listSplitOnA sep 0 cs)
    | _ :: srest =>
      if startsWithList sep (c :: cs) then
        [] :: listSplitOnA sep srest.length cs
      else consHead c (listSplitOnA sep 0 cs)

def listSplitOn (sep l : List Char) : List (List Char) :=
  listSplitOnA sep 0 l

def strSplitOn (s sep : String) : List String :=
  (listSplitOn sep.toList s.toList).map String.mk

/-- Code-point lexicographic order (Python `str` comparison). -/
def listLt : List Char → List Char → Bool
  | x :: xs, y :: ys => x < y || (x == y && listLt xs ys)
  | [], _ :: _ => true
  | _, [] => false

def strLt (a b : String) : Bool :=
  listLt a.toList b.toList

def digitsToNat (l : List Char) : Nat :=
  l.foldl (fun n c => n * 10 + (c.toNat - '0'.toNat)) 0

/-- Python `int(s)` on the numeric strings the executor feeds it (optional
sign plus decimal digits); `none` models the `ValueError` raise. -/
def pyInt (s : String) : Option Int :=
  match s.toList with
  | [] => none
  | c :: rest =>
    if c == '-' then
      if rest.length > 0 && rest.all Char.isDigit then some (-(digitsToNat rest : Int))
      else none
    else if c == '+' then
      if rest.length > 0 && rest.all Char.isDigit then some ((digitsToNat rest : Int))
      else none
    else if (c :: rest).all Char.isDigit then some ((digitsToNat (c :: rest) : Int))
    else none

def pad2i (n : Int) : String :=
  if 0 ≤ n && n < 10 then "0" ++ toString n else toString n

/-! ## `ToolExecutor._normalize_time` -/

/-- The inner `try` block of `_normalize_time`: split on `:` and parse the
integers; `none` is any exception reaching the bare `except`. -/
def parseHM (s : String) : Option (Int × Int) :=
  if substrOf ":" s then
    match strSplitOn s ":" with
    | [hs, ms] => do
      let h ← pyInt hs
      let m ← if ms == "" then some 0 else pyInt ms
      pure (h, m)
    | _ => none
  else do
    let h ← pyInt s
    pure (h, 0)

/-- `ToolExecutor._normalize_time`: lowercase, strip, drop spaces, detect and
remove am/pm markers, parse hour and minute, shift to 24-hour; on any parse
failure the (already rewritten) string is returned unchanged. -/
def normalize_time (time_str : String) : String :=
  let s := pyStrip (toLowerStr time_str)
  let s := strReplace s " " ""
  let is_pm := substrOf "pm" s || substrOf "p.m" s
  let is_am := substrOf "am" s || substrOf "a.m" s
  let s := strReplace (strReplace (strReplace (strReplace (strReplace s "pm" "") "am" "")
    "p.m." "") "a.m." "") "." ""
  match parseHM s with
  | none => s
  | some (h, m) =>
    let h := if is_pm && h < 12 then h + 12 else if is_am && h == 12 then 0 else h
    pad2i h ++ ":" ++ pad2i m

/-! ## `ToolExecutor._parse_date` -/

def parseNatD (s : String) (maxLen : Nat) : Option Nat :=
  if 1 ≤ s.length && s.length ≤ maxLen && s.toList.all Char.isDigit then
    some (digitsToNat s.toList)
  else none

def mkValidDate (y m d : Nat) : Option Date :=
  if 1 ≤ y && 1 ≤ m && m ≤ 12 && 1 ≤ d && d ≤ daysInMonth y m then
    some { year := y, month := m, day := d }
  else none

/-- Shared shape of the three-component `strptime` formats: split on the
separator, parse each field with its maximum digit width (`%Y` up to 4
digits, `%m`/`%d` up to 2, each allowing a missing leading zero). -/
def parseSep3 (s : String) (sep : String) (w1 w2 w3 : Nat)
    (f : Nat → Nat → Nat → Option Date) : Option Date :=
  match strSplitOn s sep with
  | [a, b, c] => do
    let x ← parseNatD a w1
    let y ← parseNatD b w2
    let z ← parseNatD c w3
    f x y z
  | _ => none

/-- `strptime(s, "%Y-%m-%d")`. -/
def pFmtYmd (s : String) : Option Date :=
  parseSep3 s "-" 4 2 2 fun y m d => mkValidDate y m d

/-- `strptime(s, "%d-%m-%Y")`. -/
def pFmtDmyDash (s : String) : Option Date :=
  parseSep3 s "-" 2 2 4 fun d m y => mkValidDate y m d

/-- `strptime(s, "%m/%d/%Y")`. -/
def pFmtMdySlash (s : String) : Option Date :=
  parseSep3 s "/" 2 2 4 fun m d y => mkValidDate y m d

/-- `strptime(s, "%d/%m/%Y")`. -/
def pFmtDmySlash (s : String) : Option Date :=
  parseSep3 s "/" 2 2 4 fun d m y => mkValidDate y m d

def monthIndexOf (names : List String) (w : String) : Option Nat :=
  match names.indexOf? w with
  | some i => some (i + 1)
  | none => none

/-- Month-name formats parse with the `strptime` default year 1900. -/
def pFmtMonthDay (names : List String) (s : String) : Option Date :=
  match strSplitOn s " " with
  | [a, b] => do
    let m ← monthIndexOf names a
    let d ← parseNatD b 2
    mkValidDate 1900 m d
  | _ => none

def pFmtDayMonth (names : List String) (s : String) : Option Date :=
  match strSplitOn s " " with
  | [a, b] => do
    let d ← parseNatD a 2
    let m ← monthIndexOf names b
    mkValidDate 1900 m d
  | _ => none

/-- The year-default fixup after `strptime`: a parsed year of 1900 is
replaced by the current year, rolling to the next year if the date is not in
the future. `datetime.now()` carries a nonzero time of day, so the Python
comparison `parsed < today` holds exactly when the parsed calendar date is
less than or equal to today's. -/
def adjustYear (today : Date) (d : Date) : Date :=
  if d.year == 1900 then
    let d1 := { d with year := today.year }
    if dateLe d1 today then { d with year := today.year + 1 } else d1
  else d

def firstParse (s : String) : List (String → Option Date) → Option Date
  | [] => none
  | p :: ps =>
    match p s with
    | some d => some d
    | none => firstParse s ps

/-- The `for fmt in formats` loop of `_parse_date`: first format that
parses wins, then the 1900-year fixup is applied. -/
def tryFormatList (today : Date) (s : String) : Option Date :=
  (firstParse s
    [pFmtYmd, pFmtDmyDash, pFmtMdySlash, pFmtDmySlash,
     pFmtMonthDay monthNamesFull, pFmtMonthDay monthNamesAbbr,
     pFmtDayMonth monthNamesFull, pFmtDayMonth monthNamesAbbr]).map (adjustYear today)

def weekdayListLower : List String :=
  ["monday", "tuesday", "wednesday", "thursday", "friday", "saturday", "sunday"]

def findWeekdayIn (s : String) : Option Nat :=
  (List.range 7).find? fun i => substrOf (weekdayListLower.getD i "") s

/-- `ToolExecutor._parse_date`: relative dates first, then the fixed
`strptime` format list; the error value models the raised `ValueError`. -/
def parse_date (today : Date) (date_str : String) : Except String Date :=
  let s := pyStrip (toLowerStr date_str)
  let fallback : Except String Date :=
    match tryFormatList today s with
    | some d => .ok d
    | none => .error ("Could not parse date: " ++ s)
  if s == "today" || s == "now" then .ok today
  else if s == "tomorrow" then .ok (Date.addDays today 1)
  else if s == "day after tomorrow" then .ok (Date.addDays today 2)
  else if substrOf "next" s then
    match findWeekdayIn s with
    | some i =>
      let cur := pyWeekday today
      let ahead := if i ≤ cur then i + 7 - cur else i - cur
      .ok (Date.addDays today ahead)
    | none =>
      if substrOf "week" s then .ok (Date.addDays today 7)
      else fallback
  else fallback

/-! ## Domain store (PostgreSQL `appointments` / `users` tables) and tool
arguments

The executor reads and writes one shared appointment table; a `Store` value
is the table contents plus the autoincrement counter. Session metadata
written through `session_manager.set_metadata` for the one session in scope
is carried alongside. `Env` supplies `datetime.now()` and whether a
`db.commit()` raises (the environmental failure the executor's `try` blocks
guard against). -/

structure Appointment where
  id : Nat
  user_id : Nat
  appointment_date : String
  appointment_time : String
  status : String
  purpose : String
deriving DecidableEq, Repr

structure TblUser where
  id : Nat
  name : String
  contact_number : String
deriving DecidableEq, Repr

structure Store where
  appts : List Appointment
  nextId : Nat
  users : List TblUser
  metaUserId : Option Nat
  metaUserName : Option String
deriving DecidableEq, Repr

structure Env where
  today : Date
  dbCommitError : Option String
deriving DecidableEq, Repr

/-- The mutable `ToolExecutor` fields bound at construction
(`self.user_id`, `self.user_name`). -/
structure Exec where
  user_id : Option Nat
  user_name : Option String
deriving DecidableEq, Repr

/-- JSON scalar values as found in tool-call argument maps. -/
inductive JScalar where
  | str (s : String)
  | num (n : Int)
  | bool (b : Bool)
  | null
deriving DecidableEq, Repr

/-- A JSON value inside an argument map. The embedded-call regex
`\x7b[^\x7d]+\x7d` cannot capture nested objects, so arrays of scalars
cover every payload shape reachable in the source. -/
inductive JVal where
  | scalar (v : JScalar)
  | arr (xs : List JScalar)
deriving DecidableEq, Repr

/-- Python truthiness of a JSON value. -/
def jTruthy : JVal → Bool
  | .scalar (.str s) => s != ""
  | .scalar (.num n) => n != 0
  | .scalar (.bool b) => b
  | .scalar .null => false
  | .arr xs => xs.length != 0

/-- An argument map (`Dict[str, Any]`). -/
abbrev Args := List (String × JVal)

def argLookup (args : Args) (k : String) : Option JVal :=
  (args.find? fun p => p.1 == k).map fun p => p.2

/-- `args.get(k, dflt)` followed by a string operation: a non-string value
raises (modelled as the error case, caught at the `execute` boundary). -/
def argGetStr (args : Args) (k dflt : String) : Except String String :=
  match argLookup args k with
  | none => .ok dflt
  | some (.scalar (.str s)) => .ok s
  | some _ => .error ("TypeError: expected string for argument " ++ k)

/-- `args.get("appointment_id", "")`: both a string and a JSON number work
downstream (`int(x)` and f-string interpolation accept either). -/
def argGetStrLike (args : Args) (k dflt : String) : Except String String :=
  match argLookup args k with
  | none => .ok dflt
  | some (.scalar (.str s)) => .ok s
  | some (.scalar (.num n)) => .ok (toString n)
  | some _ => .error ("TypeError: expected string for argument " ++ k)

/-- `args.get(k)` with `None` default, value used as a string when truthy. -/
def argGetOptStr (args : Args) (k : String) : Except String (Option String) :=
  match argLookup args k with
  | none => .ok none
  | some (.scalar (.str s)) => .ok (some s)
  | some _ => .error ("TypeError: expected string for argument " ++ k)

/-- Truthiness of `Optional[str]` (`None` and `""` are falsy). -/
def optStrTruthy : Option String → Bool
  | none => false
  | some s => s != ""

/-- Truthiness of `Optional[int]` (`None` and `0` are falsy). -/
def optNatTruthy : Option Nat → Bool
  | none => false
  | some n => n != 0

/-- `x or 'User'`. -/
def nameOrUser : Option String → String
  | none => "User"
  | some s => if s == "" then "User" else s

/-! ## `ToolExecutor` -/

def AVAILABLE_SLOTS : List String :=
  ["09:00", "10:00", "11:00", "14:00", "15:00", "16:00", "17:00", "18:00"]

def slotsJoined : String :=
  String.intercalate ", " AVAILABLE_SLOTS

/-- `ToolExecutor._get_current_user_id`. -/
def get_current_user_id (ex : Exec) (st : Store) : Option Nat :=
  if optNatTruthy ex.user_id then ex.user_id else st.metaUserId

/-- `ToolExecutor._get_booked_slots_from_db`: the times of scheduled
appointments on `date`, optionally excluding one appointment id. The
exclusion filter is only added when `exclude_appointment_id` is truthy
(so the Python value `0` adds no filter). -/
def get_booked_slots_from_db (st : Store) (date : String) (excl : Option Int) : List String :=
  (st.appts.filter fun a =>
      a.appointment_date == date && a.status == "scheduled" &&
        (match excl with
         | none => true
         | some e => if e == 0 then true else ((a.id : Int) != e))).map
    fun a => a.appointment_time

/-- The appointment dict shape returned by
`_get_user_appointments_from_db` (the unused `created_at` is omitted). -/
structure ApptOut where
  id : String
  date : String
  time : String
  status : String
  purpose : String
deriving DecidableEq, Repr

def apptOutOf (a : Appointment) : ApptOut :=
  { id := toString a.id, date := a.appointment_date, time := a.appointment_time,
    status := a.status, purpose := a.purpose }

/-- `ORDER BY appointment_date, appointment_time` / the Python sort key
`(x.get("date",""), x.get("time",""))`: lexicographic string order. -/
def dateTimeLe (p q : String × String) : Bool :=
  strLt p.1 q.1 || (p.1 == q.1 && (strLt p.2 q.2 || p.2 == q.2))

/-- Stable insertion: place `x` before the first element not below it. -/
def stableInsert (le : α → α → Bool) (x : α) : List α → List α
  | [] => [x]
  | y :: ys => if le x y then x :: y :: ys else y :: stableInsert le x ys

/-- Stable ascending sort (Python `list.sort` / SQL `ORDER BY` are stable
ascending). -/
def stableSort (le : α → α → Bool) : List α → List α
  | [] => []
  | x :: xs => stableInsert le x (stableSort le xs)

/-- `ToolExecutor._get_user_appointments_from_db`. -/
def get_user_appointments_from_db (st : Store) (uid : Nat) : List ApptOut :=
  ((stableSort
      (fun a b => dateTimeLe (a.appointment_date, a.appointment_time)
        (b.appointment_date, b.appointment_time))
      (st.appts.filter fun a => a.user_id == uid))).map apptOutOf

/-- Result dict of one tool execution; fields absent from a given tool's
dict stay `none`. -/
structure ToolResult where
  success : Bool
  error : Option String := none
  message : Option String := none
  user_id : Option Nat := none
  user_name : Option String := none
  already_authenticated : Option Bool := none
  existing_appointments_count : Option Nat := none
  date : Option String := none
  date_display : Option String := none
  available_slots : Option (List String) := none
  booked_slots : Option (List String) := none
  appointment_id : Option String := none
  time : Option String := none
  purpose : Option String := none
  total_count : Option Nat := none
  upcoming : Option (List ApptOut) := none
  upcoming_count : Option Nat := none
  past : Option (List ApptOut) := none
  past_count : Option Nat := none
  old_date : Option String := none
  old_time : Option String := none
  new_date : Option String := none
  new_time : Option String := none
  reason : Option String := none
deriving DecidableEq, Repr

/-- One tool implementation step: `.error` is an uncaught Python exception
propagating out of the `_execute_*` method (converted to a failure dict by
`execute`); `.ok` carries the result dict and the updated database/executor
state. -/
abbrev ToolM := Except String (ToolResult × Store × Exec)

instance {ε α : Type} [DecidableEq ε] [DecidableEq α] : DecidableEq (Except ε α) := by
  intro a b
  cases a <;> cases b <;> first
    | (apply isFalse; intro h; exact Except.noConfusion h)
    | (rename_i x y
       exact if h : x = y then isTrue (by rw [h]) else
         isFalse (fun hc => h (by cases hc; rfl)))

def mkFail (e : String) : ToolResult := { success := false, error := some e }

/-- Update the first appointment row matching `id` (the row
`query.filter(Appointment.id == n).first()` mutates). -/
def updateApptById (l : List Appointment) (i : Nat) (f : Appointment → Appointment) :
    List Appointment :=
  match l with
  | [] => []
  | a :: rest => if a.id == i then f a :: rest else a :: updateApptById rest i f

/-- `ToolExecutor._execute_identify_user`. -/
def execute_identify_user (_env : Env) (ex : Exec) (st : Store) (args : Args) : ToolM := do
  if optNatTruthy ex.user_id then
    return ({ success := true,
              message := some ("User already authenticated as " ++ nameOrUser ex.user_name),
              user_id := ex.user_id,
              already_authenticated := some true }, st, ex)
  let contact0 ← argGetStr args "contact_number" ""
  let contact := String.mk ((pyStrip contact0).toList.filter Char.isDigit)
  if contact.length < 10 then
    return (mkFail "Invalid phone number. Please provide a 10-digit number.", st, ex)
  match st.users.find? fun u => u.contact_number == contact with
  | some u =>
    let st := { st with metaUserId := some u.id, metaUserName := some u.name }
    let ex := { user_id := some u.id, user_name := some u.name }
    let existing := get_user_appointments_from_db st u.id
    return ({ success := true, user_id := some u.id, user_name := some u.name,
              message := some ("Welcome back, " ++ nameOrUser (some u.name) ++ "!"),
              existing_appointments_count := some existing.length }, st, ex)
  | none =>
    return (mkFail "No user found with that phone number. Please register first.", st, ex)

/-- `ToolExecutor._execute_fetch_slots`. -/
def execute_fetch_slots (env : Env) (ex : Exec) (st : Store) (args : Args) : ToolM := do
  let date_str ← argGetStr args "date" ""
  match parse_date env.today date_str with
  | .error e => return (mkFail ("Invalid date format: " ++ e), st, ex)
  | .ok date =>
    let date_formatted := formatYMD date
    let booked_slots := get_booked_slots_from_db st date_formatted none
    let available := AVAILABLE_SLOTS.filter fun slot => !booked_slots.contains slot
    return ({ success := true, date := some date_formatted,
              date_display := some (formatDisplay date),
              available_slots := some available,
              booked_slots := some booked_slots,
              message := some ("Found " ++ toString available.length ++
                " available slots on " ++ date_formatted) }, st, ex)

/-- `ToolExecutor._execute_book_appointment`. -/
def execute_book_appointment (env : Env) (ex : Exec) (st : Store) (args : Args) : ToolM := do
  let uid? := get_current_user_id ex st
  if !optNatTruthy uid? then
    return (mkFail "User not authenticated. Please log in first.", st, ex)
  let uid := uid?.getD 0
  let date_str ← argGetStr args "date" ""
  let time_str0 ← argGetStr args "time" ""
  let purpose ← argGetStr args "purpose" "General appointment"
  match parse_date env.today date_str with
  | .error e => return (mkFail ("Invalid date: " ++ e), st, ex)
  | .ok date =>
    let date_formatted := formatYMD date
    let time_str := normalize_time time_str0
    if !AVAILABLE_SLOTS.contains time_str then
      return (mkFail ("Invalid time slot. Available slots are: " ++ slotsJoined), st, ex)
    let booked_slots := get_booked_slots_from_db st date_formatted none
    if booked_slots.contains time_str then
      return (mkFail ("Sorry, " ++ time_str ++ " on " ++ date_formatted ++
        " is already booked. Please choose another slot."), st, ex)
    let user_appointments := get_user_appointments_from_db st uid
    if user_appointments.any fun appt =>
        appt.date == date_formatted && appt.time == time_str && appt.status == "scheduled" then
      return (mkFail "You already have an appointment at this date and time.", st, ex)
    match env.dbCommitError with
    | some e => throw e
    | none =>
      let newAppt : Appointment :=
        { id := st.nextId, user_id := uid, appointment_date := date_formatted,
          appointment_time := time_str, status := "scheduled", purpose := purpose }
      let st2 := { st with appts := st.appts ++ [newAppt], nextId := st.nextId + 1 }
      return ({ success := true, appointment_id := some (toString newAppt.id),
                date := some date_formatted,
                date_display := some (formatDisplay date),
                time := some time_str, purpose := some purpose,
                message := some ("Appointment booked for " ++ formatDisplayShort date ++
                  " at " ++ time_str) }, st2, ex)

/-- `ToolExecutor._execute_retrieve_appointments`. -/
def execute_retrieve_appointments (env : Env) (ex : Exec) (st : Store) (args : Args) : ToolM := do
  let uid? := get_current_user_id ex st
  if !optNatTruthy uid? then
    return (mkFail "User not authenticated. Please log in first.", st, ex)
  let uid := uid?.getD 0
  let include_cancelled :=
    match argLookup args "include_cancelled" with
    | none => false
    | some v => jTruthy v
  let appointments := get_user_appointments_from_db st uid
  let appointments :=
    if !include_cancelled then appointments.filter fun a => a.status != "cancelled"
    else appointments
  let appointments := stableSort (fun a b => dateTimeLe (a.date, a.time) (b.date, b.time)) appointments
  let today := formatYMD env.today
  let upcoming := appointments.filter fun a => !strLt a.date today && a.status == "scheduled"
  let past := appointments.filter fun a => strLt a.date today || a.status != "scheduled"
  return ({ success := true, user_id := some uid,
            total_count := some appointments.length,
            upcoming := some upcoming, upcoming_count := some upcoming.length,
            past := some past, past_count := some past.length,
            message := some ("Found " ++ toString upcoming.length ++ " upcoming and " ++
              toString past.length ++ " past appointments") }, st, ex)

/-- `ToolExecutor._execute_cancel_appointment`. -/
def execute_cancel_appointment (env : Env) (ex : Exec) (st : Store) (args : Args) : ToolM := do
  let uid? := get_current_user_id ex st
  if !optNatTruthy uid? then
    return (mkFail "User not authenticated. Please log in first.", st, ex)
  let uid := uid?.getD 0
  let appointment_id ← argGetStrLike args "appointment_id" ""
  match pyInt appointment_id with
  | none => return (mkFail ("Invalid appointment ID: " ++ appointment_id), st, ex)
  | some n =>
    match st.appts.find? fun a => (a.id : Int) == n with
    | none => return (mkFail ("Appointment " ++ appointment_id ++ " not found."), st, ex)
    | some appointment =>
      if appointment.user_id != uid then
        return (mkFail "This appointment doesn't belong to you.", st, ex)
      if appointment.status == "cancelled" then
        return (mkFail "This appointment is already cancelled.", st, ex)
      match env.dbCommitError with
      | some e => throw e
      | none =>
        let st := { st with
          appts := updateApptById st.appts appointment.id fun a => { a with status := "cancelled" } }
        return ({ success := true, appointment_id := some appointment_id,
                  date := some appointment.appointment_date,
                  time := some appointment.appointment_time,
                  message := some ("Appointment on " ++ appointment.appointment_date ++
                    " at " ++ appointment.appointment_time ++ " has been cancelled.") }, st, ex)

/-- The `# Parse new date if provided` block of `_execute_modify_appointment`:
keep the stored date when no (truthy) new date was supplied. -/
def modifyTargetDate (env : Env) (appointment : Appointment) (new_date : Option String) :
    Except String String :=
  match new_date with
  | some nd =>
    if nd != "" then
      match parse_date env.today nd with
      | .error e => .error ("Invalid new date: " ++ e)
      | .ok d => .ok (formatYMD d)
    else .ok appointment.appointment_date
  | none => .ok appointment.appointment_date

/-- The `# Parse new time if provided` block of `_execute_modify_appointment`. -/
def modifyTargetTime (appointment : Appointment) (new_time : Option String) :
    Except String String :=
  match new_time with
  | some nt =>
    if nt != "" then
      if !AVAILABLE_SLOTS.contains (normalize_time nt) then
        .error ("Invalid time. Available: " ++ slotsJoined)
      else .ok (normalize_time nt)
    else .ok appointment.appointment_time
  | none => .ok appointment.appointment_time

/-- `ToolExecutor._execute_modify_appointment`. -/
def execute_modify_appointment (env : Env) (ex : Exec) (st : Store) (args : Args) : ToolM := do
  let uid? := get_current_user_id ex st
  if !optNatTruthy uid? then
    return (mkFail "User not authenticated. Please log in first.", st, ex)
  let uid := uid?.getD 0
  let appointment_id ← argGetStrLike args "appointment_id" ""
  let new_date ← argGetOptStr args "new_date"
  let new_time ← argGetOptStr args "new_time"
  if !optStrTruthy new_date && !optStrTruthy new_time then
    return (mkFail "Please specify a new date or time to modify.", st, ex)
  match pyInt appointment_id with
  | none => return (mkFail ("Invalid appointment ID: " ++ appointment_id), st, ex)
  | some n =>
    match st.appts.find? fun a => (a.id : Int) == n with
    | none => return (mkFail ("Appointment " ++ appointment_id ++ " not found."), st, ex)
    | some appointment =>
      if appointment.user_id != uid then
        return (mkFail "This appointment doesn't belong to you.", st, ex)
      if appointment.status == "cancelled" then
        return (mkFail "Cannot modify a cancelled appointment.", st, ex)
      match modifyTargetDate env appointment new_date with
      | .error e => return (mkFail e, st, ex)
      | .ok target_date =>
        match modifyTargetTime appointment new_time with
        | .error e => return (mkFail e, st, ex)
        | .ok target_time =>
          let booked_slots := get_booked_slots_from_db st target_date (some n)
          if booked_slots.contains target_time then
            return (mkFail ("Sorry, " ++ target_time ++ " on " ++ target_date ++
              " is already booked."), st, ex)
          match env.dbCommitError with
          | some e => throw e
          | none =>
            let st := { st with
              appts := updateApptById st.appts appointment.id fun a =>
                { a with appointment_date := target_date, appointment_time := target_time } }
            return ({ success := true, appointment_id := some appointment_id,
                      old_date := some appointment.appointment_date,
                      old_time := some appointment.appointment_time,
                      new_date := some target_date, new_time := some target_time,
                      message := some ("Appointment changed from " ++
                        appointment.appointment_date ++ " " ++ appointment.appointment_time ++
                        " to " ++ target_date ++ " " ++ target_time) }, st, ex)

/-- `ToolExecutor._execute_end_conversation`. -/
def execute_end_conversation (_env : Env) (ex : Exec) (st : Store) (args : Args) : ToolM := do
  let reason ← argGetStr args "reason" "user_request"
  return ({ success := true, reason := some reason,
            message := some "Ending conversation. Goodbye!" }, st, ex)

/-- Dispatch `getattr(self, f"_execute_{tool_name}")`: `none` means no such
method exists. -/
def toolImpl (env : Env) (ex : Exec) (st : Store) (name : String) (args : Args) :
    Option ToolM :=
  match name with
  | "identify_user" => some (execute_identify_user env ex st args)
  | "fetch_slots" => some (execute_fetch_slots env ex st args)
  | "book_appointment" => some (execute_book_appointment env ex st args)
  | "retrieve_appointments" => some (execute_retrieve_appointments env ex st args)
  | "cancel_appointment" => some (execute_cancel_appointment env ex st args)
  | "modify_appointment" => some (execute_modify_appointment env ex st args)
  | "end_conversation" => some (execute_end_conversation env ex st args)
  | _ => none

def knownTools : List String :=
  ["identify_user", "fetch_slots", "book_appointment", "retrieve_appointments",
   "cancel_appointment", "modify_appointment", "end_conversation"]

/-- `ToolExecutor.execute`: unknown tool names fail with a structured error,
and any exception a tool implementation raises is caught and converted to a
failure result (the database session of a failed call commits nothing). -/
def execute (env : Env) (ex : Exec) (st : Store) (name : String) (args : Args) :
    ToolResult × Store × Exec :=
  match toolImpl env ex st name args with
  | none => (mkFail ("Unknown tool: " ++ name), st, ex)
  | some (.ok r) => r
  | some (.error e) => (mkFail e, st, ex)

/-! ## Conversation history (`RedisSessionManager`)

One session's Redis conversation list. `rpush` is append, `ltrim key -100 -1`
keeps the last 100 entries. -/

/-- `ToolCall` dataclass from `app/services/llm/base.py` (also the dict shape
stored for assistant messages). The random `uuid` ids are modelled as opaque
strings chosen by whoever constructs the call. -/
structure ToolCall where
  id : String
  name : String
  arguments : Args
deriving DecidableEq, Repr

/-- One stored conversation entry (the JSON dict `add_message` pushes). -/
structure Message where
  role : String
  content : String
  tool_calls : Option (List ToolCall) := none
  tool_call_id : Option String := none
  name : Option String := none
deriving DecidableEq, Repr

/-- Redis `LTRIM key -n -1`: keep the last `n` entries. -/
def ltrimLast (n : Nat) (l : List Message) : List Message :=
  l.drop (l.length - n)

/-- `RedisSessionManager.init_conversation`: delete any existing list, push
the system prompt. -/
def init_conversation (system_prompt : String) : List Message :=
  [{ role := "system", content := system_prompt }]

/-- The message dict `add_message` builds: the optional fields are attached
only when truthy. -/
def mkStoredMessage (role content : String) (tool_calls : Option (List ToolCall))
    (tool_call_id name : Option String) : Message :=
  { role := role, content := content,
    tool_calls :=
      match tool_calls with
      | some l => if l.length != 0 then some l else none
      | none => none,
    tool_call_id :=
      match tool_call_id with
      | some s => if s != "" then some s else none
      | none => none,
    name :=
      match name with
      | some s => if s != "" then some s else none
      | none => none }

/-- `RedisSessionManager.add_message`: `rpush` the message, then
`ltrim(key, -100, -1)`. -/
def add_message (conv : List Message) (role content : String)
    (tool_calls : Option (List ToolCall) := none)
    (tool_call_id : Option String := none) (name : Option String := none) : List Message :=
  ltrimLast 100 (conv ++ [mkStoredMessage role content tool_calls tool_call_id name])

/-! ## Agent loop (`voice._process_llm_with_tools`)

The LLM provider is an oracle mapping the conversation history it is shown to
a response; everything else (`temperature`, the tool catalog, latency) does
not influence the embedded control flow. -/

/-- `LLMResponse` restricted to the fields the loop reads. A `content` of
`""` stands for both the empty string and `None` (both falsy under `or`);
`usage` carries `(input_tokens, output_tokens)` when the provider reports
them. -/
structure LLMResp where
  content : String
  tool_calls : List ToolCall
  usage : Option (Nat × Nat) := none
deriving DecidableEq, Repr

/-- `CostTracker` accumulators (`cost_tracker.py`). Prices are applied only
at read time; the state is the usage counters. STT audio duration is
wall-clock seconds, modelled in abstract units. -/
structure CostRecord where
  stt_audio_units : Nat
  llm_input_tokens : Nat
  llm_output_tokens : Nat
  tts_characters : Nat
  stt_requests : Nat
  llm_requests : Nat
  tts_requests : Nat
deriving DecidableEq, Repr

def CostRecord.zero : CostRecord :=
  { stt_audio_units := 0, llm_input_tokens := 0, llm_output_tokens := 0,
    tts_characters := 0, stt_requests := 0, llm_requests := 0, tts_requests := 0 }

/-- `CostTracker.track_stt`. -/
def track_stt (c : CostRecord) (units : Nat) : CostRecord :=
  { c with stt_audio_units := c.stt_audio_units + units,
           stt_requests := c.stt_requests + 1 }

/-- `CostTracker.track_llm`. -/
def track_llm (c : CostRecord) (input_tokens output_tokens : Nat) : CostRecord :=
  { c with llm_input_tokens := c.llm_input_tokens + input_tokens,
           llm_output_tokens := c.llm_output_tokens + output_tokens,
           llm_requests := c.llm_requests + 1 }

/-- `CostTracker.track_tts`. -/
def track_tts (c : CostRecord) (characters : Nat) : CostRecord :=
  { c with tts_characters := c.tts_characters + characters,
           tts_requests := c.tts_requests + 1 }

def jsonEscape (s : String) : String :=
  (s.replace "\\" "\\\\").replace "\"" "\\\""

def jsonOfStr (s : String) : String :=
  "\"" ++ jsonEscape s ++ "\""

/-- `json.dumps(result)` for a tool result dict: the non-absent fields in a
fixed order (a deterministic stand-in for Python dict insertion order, which
only feeds back into the LLM oracle). -/
def toolResultContent (r : ToolResult) : String :=
  let fields : List (String × Option String) :=
    [("success", some (if r.success then "true" else "false")),
     ("error", r.error.map jsonOfStr),
     ("message", r.message.map jsonOfStr),
     ("date", r.date.map jsonOfStr),
     ("time", r.time.map jsonOfStr),
     ("appointment_id", r.appointment_id.map jsonOfStr),
     ("reason", r.reason.map jsonOfStr)]
  "\x7b" ++ String.intercalate ", "
    ((fields.filterMap fun p => p.2.map fun v => jsonOfStr p.1 ++ ": " ++ v)) ++ "\x7d"

/-- Server-to-client websocket events, restricted to the fields the
properties mention. -/
inductive ServerMsg where
  | tool_call_evt (tool : String) (tool_call_id : String)
  | tool_result_evt (tool : String) (tool_call_id : String) (result : ToolResult)
  | audio_response (text : String) (user_transcript : String) (should_end_call : Bool)
  | call_summary (summary : String)
  | cost_breakdown (costs : CostRecord)
deriving DecidableEq, Repr

/-- State threaded through one invocation of the tool-calling loop: the
session's Redis conversation, the appointment database, the executor, the
cost record, the websocket events sent so far, the `end_conversation` flag,
and (for the iteration-bound property) the number of LLM calls made so
far. -/
structure LoopState where
  conv : List Message
  st : Store
  ex : Exec
  cost : CostRecord
  sends : List ServerMsg
  endConv : Bool
  llmCalls : Nat
deriving Repr

/-- The `for tool_call in llm_response.tool_calls` body: execute each call in
order (strictly sequentially), record the `end_conversation` signal, append
one tool-result message per call, send the `tool_call`/`tool_result`
events. -/
def runToolCalls (env : Env) (s : LoopState) : List ToolCall → LoopState
  | [] => s
  | tc :: rest =>
    let r := execute env s.ex s.st tc.name tc.arguments
    runToolCalls env
      { s with
        conv := add_message s.conv "tool" (toolResultContent r.1) none (some tc.id) (some tc.name),
        st := r.2.1, ex := r.2.2,
        sends := s.sends ++ [.tool_call_evt tc.name tc.id, .tool_result_evt tc.name tc.id r.1],
        endConv := s.endConv || tc.name == "end_conversation" }
      rest

def MAX_TOOL_ITERATIONS : Nat := 10

def loopFallbackMessage : String :=
  "I apologize, but I'm having trouble processing your request. Could you please try again?"

def emptyContentFallback : String := "I'm sorry, I couldn't generate a response."

/-- `while iteration < MAX_TOOL_ITERATIONS` in `_process_llm_with_tools`:
`fuel` is the number of loop-body executions still allowed; exhausting it is
the max-iterations exit, which returns the fixed apologetic message and
`should_end = False`. -/
def process_llm_aux (env : Env) (llm : List Message → LLMResp) :
    Nat → LoopState → String × Bool × LoopState
  | 0, s => (loopFallbackMessage, false, s)
  | fuel + 1, s =>
    let resp := llm s.conv
    let s := { s with llmCalls := s.llmCalls + 1,
                      cost := match resp.usage with
                              | some u => track_llm s.cost u.1 u.2
                              | none => s.cost }
    if resp.tool_calls.length != 0 then
      let conv := add_message s.conv "assistant" resp.content (some resp.tool_calls)
      let s := runToolCalls env { s with conv := conv } resp.tool_calls
      process_llm_aux env llm fuel s
    else
      let final := if resp.content == "" then emptyContentFallback else resp.content
      (final, s.endConv, { s with conv := add_message s.conv "assistant" final })

/-- `voice._process_llm_with_tools` for one user turn. -/
def process_llm_with_tools (env : Env) (llm : List Message → LLMResp)
    (conv : List Message) (st : Store) (ex : Exec) (cost : CostRecord) :
    String × Bool × LoopState :=
  process_llm_aux env llm MAX_TOOL_ITERATIONS
    { conv := conv, st := st, ex := ex, cost := cost, sends := [],
      endConv := false, llmCalls := 0 }

/-! ## Text-embedded tool-call parsing (`llm_proxy.py`)

The three `re.findall` patterns and the two `re.sub` cleanups are embedded
as character-list scanners with the exact backtracking behaviour the
patterns admit (each pattern anchors on a literal, uses possessive-in-effect
character classes, so the regex engine's search is equivalent to: try a
match at each position left to right, and continue after the matched text).
-/

def isWordChar (c : Char) : Bool :=
  c.isAlphanum || c == '_'

def takeWhileSplit (p : Char → Bool) : List Char → List Char × List Char
  | [] => ([], [])
  | c :: cs =>
    if p c then
      let r := takeWhileSplit p cs
      (c :: r.1, r.2)
    else ([], c :: cs)

/-- Match a literal prefix, returning the rest. -/
def stripLit : List Char → List Char → Option (List Char)
  | [], l => some l
  | _ :: _, [] => none
  | p :: ps, c :: cs => if c == p then stripLit ps cs else none

/-- Split at the earliest occurrence of `pat`, returning the text before it
and the text after it. -/
def splitOnceList (pat : List Char) : List Char → Option (List Char × List Char)
  | [] => if pat.isEmpty then some ([], []) else none
  | c :: cs =>
    if startsWithList pat (c :: cs) then some ([], (c :: cs).drop pat.length)
    else
      match splitOnceList pat cs with
      | some pr => some (c :: pr.1, pr.2)
      | none => none

/-- The payload group `(\x7b[^\x7d]+\x7d)`: an opening brace, one or more
non-brace characters, a closing brace; returns the payload including its
braces. -/
def takePayload (l : List Char) : Option (List Char × List Char) :=
  match l with
  | '{' :: rest =>
    let s := takeWhileSplit (fun c => c != '}') rest
    match s.2 with
    | '}' :: rest2 => if s.1.length == 0 then none else some ('{' :: (s.1 ++ ['}']), rest2)
    | _ => none
  | _ => none

/-- Pattern 1: `<function=(\w+)>(\x7b[^\x7d]+\x7d)</function>`. -/
def matchP1 (l : List Char) : Option ((String × String) × List Char) :=
  match stripLit "<function=".toList l with
  | none => none
  | some r1 =>
    let nm := takeWhileSplit isWordChar r1
    if nm.1.length == 0 then none
    else
      match nm.2 with
      | '>' :: r2 =>
        match takePayload r2 with
        | none => none
        | some (pl, r3) =>
          match stripLit "</function>".toList r3 with
          | none => none
          | some r4 => some ((String.mk nm.1, String.mk pl), r4)
      | _ => none

/-- Pattern 2: `<function=(\w+)=?(\x7b[^\x7d]+\x7d)>?`. -/
def matchP2 (l : List Char) : Option ((String × String) × List Char) :=
  match stripLit "<function=".toList l with
  | none => none
  | some r1 =>
    let nm := takeWhileSplit isWordChar r1
    if nm.1.length == 0 then none
    else
      let r2 := match nm.2 with
                | '=' :: t => t
                | t => t
      match takePayload r2 with
      | none => none
      | some (pl, r3) =>
        let r4 := match r3 with
                  | '>' :: t => t
                  | t => t
        some ((String.mk nm.1, String.mk pl), r4)

/-- Pattern 3: `<function=(\w+)(\x7b[^\x7d]+\x7d)>?`. -/
def matchP3 (l : List Char) : Option ((String × String) × List Char) :=
  match stripLit "<function=".toList l with
  | none => none
  | some r1 =>
    let nm := takeWhileSplit isWordChar r1
    if nm.1.length == 0 then none
    else
      match takePayload nm.2 with
      | none => none
      | some (pl, r3) =>
        let r4 := match r3 with
                  | '>' :: t => t
                  | t => t
        some ((String.mk nm.1, String.mk pl), r4)

/-- The `re.sub` cleanup pattern of `parse_text_tool_calls`:
`<function=\w+[=>]?\x7b[^\x7d]+\x7d>?(?:</function>)?`; returns the rest
after the matched text. -/
def matchCleanP (l : List Char) : Option (List Char) :=
  match stripLit "<function=".toList l with
  | none => none
  | some r1 =>
    let nm := takeWhileSplit isWordChar r1
    if nm.1.length == 0 then none
    else
      let r2 := match nm.2 with
                | '=' :: t => t
                | '>' :: t => t
                | t => t
      match takePayload r2 with
      | none => none
      | some (_, r3) =>
        let r4 := match r3 with
                  | '>' :: t => t
                  | t => t
        match stripLit "</function>".toList r4 with
        | some r5 => some r5
        | none => some r4

/-- `re.findall`, left to right, continuing after each match; the `skip`
counter walks past the matched text (every pattern here consumes at least
one character, which is also how `re` advances past a match). -/
def scanAllA (m : List Char → Option ((String × String) × List Char)) :
    Nat → List Char → List (String × String)
  | _, [] => []
  | skip + 1, _ :: cs => scanAllA m skip cs
  | 0, c :: cs =>
    match m (c :: cs) with
    | some (pr, rest) => pr :: scanAllA m (cs.length + 1 - rest.length - 1) cs
    | none => scanAllA m 0 cs

def scanAll (m : List Char → Option ((String × String) × List Char))
    (l : List Char) : List (String × String) :=
  scanAllA m 0 l

/-- `re.sub(pattern, '', text)`: drop each non-overlapping match. -/
def subAllA (m : List Char → Option (List Char)) : Nat → List Char → List Char
  | _, [] => []
  | skip + 1, _ :: cs => subAllA m skip cs
  | 0, c :: cs =>
    match m (c :: cs) with
    | some rest =>
      if cs.length + 1 - rest.length == 0 then c :: subAllA m 0 cs
      else subAllA m (cs.length + 1 - rest.length - 1) cs
    | none => c :: subAllA m 0 cs

def subAll (m : List Char → Option (List Char)) (l : List Char) : List Char :=
  subAllA m 0 l

/-! ### `json.loads` on the flat payloads the markup regex can capture

The payload group contains no closing brace, so a successfully matched
payload is a single-level object: string/integer/boolean/null members and
arrays of scalars. Unicode escapes, fractional numbers and duplicate keys
are outside the shapes the source ever feeds through this path. -/

def jsonWs (c : Char) : Bool :=
  match c with
  | ' ' | '\t' | '\n' | '\r' => true
  | _ => false

def escChar (c : Char) : Option Char :=
  match c with
  | '"' => some '"'
  | '\\' => some '\\'
  | '/' => some '/'
  | 'n' => some '\n'
  | 't' => some '\t'
  | 'r' => some '\r'
  | 'b' => some '\x08'
  | 'f' => some '\x0c'
  | _ => none

/-- String body after the opening quote; returns the decoded characters and
the rest after the closing quote. -/
def parseJStringAux : List Char → Option (List Char × List Char)
  | [] => none
  | '\\' :: e :: cs =>
    match escChar e with
    | some ec => (parseJStringAux cs).map fun r => (ec :: r.1, r.2)
    | none => none
  | '"' :: cs => some ([], cs)
  | c :: cs => (parseJStringAux cs).map fun r => (c :: r.1, r.2)

def parseJNum (l : List Char) : Option (Int × List Char) :=
  let p := match l with
           | '-' :: t => (true, t)
           | _ => (false, l)
  let s := takeWhileSplit Char.isDigit p.2
  if s.1.length == 0 then none
  else some ((if p.1 then -(digitsToNat s.1 : Int) else (digitsToNat s.1 : Int)), s.2)

def parseScalar (l : List Char) : Option (JScalar × List Char) :=
  match l with
  | '"' :: cs => (parseJStringAux cs).map fun r => (.str (String.mk r.1), r.2)
  | _ =>
    match stripLit "true".toList l with
    | some r => some (.bool true, r)
    | none =>
      match stripLit "false".toList l with
      | some r => some (.bool false, r)
      | none =>
        match stripLit "null".toList l with
        | some r => some (.null, r)
        | none => (parseJNum l).map fun r => (.num r.1, r.2)

def parseArrItems : Nat → List Char → Option (List JScalar × List Char)
  | 0, _ => none
  | fuel + 1, l =>
    match parseScalar (l.dropWhile jsonWs) with
    | none => none
    | some (v, r) =>
      match r.dropWhile jsonWs with
      | ',' :: r2 => (parseArrItems fuel r2).map fun p => (v :: p.1, p.2)
      | ']' :: r2 => some ([v], r2)
      | _ => none

def parseJVal (fuel : Nat) (l : List Char) : Option (JVal × List Char) :=
  match l with
  | '[' :: cs =>
    match cs.dropWhile jsonWs with
    | ']' :: r => some (.arr [], r)
    | _ => (parseArrItems fuel cs).map fun p => (.arr p.1, p.2)
  | _ => (parseScalar l).map fun p => (.scalar p.1, p.2)

def parseMembers : Nat → List Char → Option (Args × List Char)
  | 0, _ => none
  | fuel + 1, l =>
    match l.dropWhile jsonWs with
    | '"' :: cs =>
      match parseJStringAux cs with
      | none => none
      | some (k, r) =>
        match r.dropWhile jsonWs with
        | ':' :: r2 =>
          match parseJVal (fuel + 1) (r2.dropWhile jsonWs) with
          | none => none
          | some (v, r3) =>
            match r3.dropWhile jsonWs with
            | ',' :: r4 => (parseMembers fuel r4).map fun p => ((String.mk k, v) :: p.1, p.2)
            | '}' :: r4 => some ([(String.mk k, v)], r4)
            | _ => none
        | _ => none
    | _ => none

/-- `json.loads` restricted to objects, `none` modelling
`json.JSONDecodeError`. -/
def jsonParse (s : String) : Option Args :=
  match s.toList.dropWhile jsonWs with
  | '{' :: cs =>
    match cs.dropWhile jsonWs with
    | '}' :: r => if (r.dropWhile jsonWs).isEmpty then some [] else none
    | _ =>
      match parseMembers (s.length + 1) cs with
      | some (fields, rest) =>
        if (rest.dropWhile jsonWs).isEmpty then some fields else none
      | none => none
  | _ => none

/-- The `(name, payload)` matches found by the three `re.findall` passes,
in the order the `for pattern in [pattern1, pattern2, pattern3]` loop visits
them. -/
def textToolMatches (content : String) : List (String × String) :=
  scanAll matchP1 content.toList ++ scanAll matchP2 content.toList ++
    scanAll matchP3 content.toList

/-- `llm_proxy.parse_text_tool_calls`: collect the matches of the three
patterns in order, turn each into a `ToolCall` — a payload that fails
`json.loads` yields `arguments = {}` — and strip the call syntax from the
text. The random `uuid` call ids are modelled by the match index. -/
def parse_text_tool_calls (content : String) : String × List ToolCall :=
  let tool_calls := (textToolMatches content).enum.map fun p =>
    { id := "call_" ++ toString p.1,
      name := p.2.1,
      arguments := match jsonParse p.2.2 with
                   | some a => a
                   | none => [] : ToolCall }
  let clean_content := String.mk (subAll matchCleanP content.toList)
  (pyStrip clean_content, tool_calls)

/-- First `re.sub` of `clean_response_for_speech`:
`<function[^>]*>.*?(?:</function>|$)` with `re.DOTALL`. -/
def matchSpeechFn (l : List Char) : Option (List Char) :=
  match stripLit "<function".toList l with
  | none => none
  | some r1 =>
    let s := takeWhileSplit (fun c => c != '>') r1
    match s.2 with
    | '>' :: r2 =>
      match splitOnceList "</function>".toList r2 with
      | some pr => some pr.2
      | none => some []
    | _ => none

/-- Second `re.sub` of `clean_response_for_speech`:
`\x7b"[^"]+":.*?\x7d` (no DOTALL: the lazy run may not cross a newline). -/
def matchJsonLike (l : List Char) : Option (List Char) :=
  match l with
  | '{' :: '"' :: cs =>
    let k := takeWhileSplit (fun c => c != '"') cs
    if k.1.length == 0 then none
    else
      match k.2 with
      | '"' :: ':' :: r =>
        let b := takeWhileSplit (fun c => c != '}' && c != '\n') r
        match b.2 with
        | '}' :: r2 => some r2
        | _ => none
      | _ => none
  | _ => none

def collapseWsAux : Bool → List Char → List Char
  | _, [] => []
  | prevWs, c :: cs =>
    if pyIsSpace c then
      if prevWs then collapseWsAux true cs else ' ' :: collapseWsAux true cs
    else c :: collapseWsAux false cs

/-- `re.sub(r'\s+', ' ', text)`. -/
def collapseWs (l : List Char) : List Char :=
  collapseWsAux false l

/-- `llm_proxy.clean_response_for_speech`. -/
def clean_response_for_speech (content : String) : String :=
  let c1 := subAll matchSpeechFn content.toList
  let c2 := subAll matchJsonLike c1
  pyStrip (String.mk (collapseWs c2))

/-! ## The proxy tool-calling loop (`llm_proxy.chat_completions`, lines
266–355): same agentic loop, cap 5, with the text-based tool-call fallback
and the final `clean_response_for_speech`. -/

def MAX_TOOL_ITERATIONS_PROXY : Nat := 5

/-- One invocation of the proxy loop. `hasExecutor` is the truthiness of
`tool_executor` (present only when a user id was recovered from the system
prompt). Returns the final response text, the updated store/executor and the
number of LLM calls made. Exhausting the cap leaves `final_response` as the
initial `""`. -/
def proxy_llm_aux (env : Env) (llm : List Message → LLMResp) (hasExecutor : Bool) :
    Nat → List Message → Store → Exec → Nat → String × Store × Exec × Nat
  | 0, _, st, ex, calls => ("", st, ex, calls)
  | fuel + 1, msgs, st, ex, calls =>
    let resp := llm msgs
    let calls := calls + 1
    let pr :=
      if resp.tool_calls.length == 0 && hasExecutor && substrOf "<function=" resp.content then
        let parsed := parse_text_tool_calls resp.content
        if parsed.2.length != 0 then (parsed.2, parsed.1) else (resp.tool_calls, resp.content)
      else (resp.tool_calls, resp.content)
    if pr.1.length != 0 && hasExecutor then
      let msgs := msgs ++ [{ role := "assistant", content := pr.2, tool_calls := some pr.1 }]
      let step := pr.1.foldl
        (fun (acc : List Message × Store × Exec) tc =>
          let r := execute env acc.2.2 acc.2.1 tc.name tc.arguments
          (acc.1 ++ [{ role := "tool", content := toolResultContent r.1,
                       tool_call_id := some tc.id, name := some tc.name }],
           r.2.1, r.2.2))
        (msgs, st, ex)
      proxy_llm_aux env llm hasExecutor fuel step.1 step.2.1 step.2.2 calls
    else
      let final := if pr.2 == "" then "I'm sorry, I couldn't generate a response." else pr.2
      (clean_response_for_speech final, st, ex, calls)

/-- The tool-calling portion of `llm_proxy.chat_completions`. -/
def proxy_process (env : Env) (llm : List Message → LLMResp) (hasExecutor : Bool)
    (msgs : List Message) (st : Store) (ex : Exec) : String × Store × Exec × Nat :=
  proxy_llm_aux env llm hasExecutor MAX_TOOL_ITERATIONS_PROXY msgs st ex 0

/-! ## The websocket message loop (`voice.voice_ws`, lines 437–741)

One authenticated connection bound to `session_id`. Each incoming client
message is dispatched by its `type` after the session-isolation guard;
upstream services are oracles: the Deepgram transcript for the turn, the
LLM provider, the summary generation. `synthesize_speech` inputs are
recorded instead of producing audio. -/

/-- A parsed client JSON message (`msg.get(...)` fields). -/
structure ClientMsg where
  type : Option String := none
  session_id : Option String := none
  chunk_number : Option Nat := none
  data : Option String := none
  total_chunks : Option Nat := none
  text : Option String := none
deriving DecidableEq, Repr

/-- Connection-owned state: this session's Redis conversation list, the
shared appointment store, the tool executor, the session's cost record, the
session-hash status field, the Deepgram client's buffered audio and the
`audio_start_time is not None` flag. -/
structure WsState where
  conv : List Message
  st : Store
  ex : Exec
  cost : CostRecord
  sessionStatus : String
  audioBuffer : List String
  audioStartSet : Bool
deriving Repr

/-- External behaviour for the turn: LLM oracle, the finalized Deepgram
transcript, whether Deepgram is connected, and the generated call summary
with its token usage. -/
structure TurnOracles where
  llm : List Message → LLMResp
  transcript : String
  deepgramConnected : Bool
  summary : String
  summaryUsage : Option (Nat × Nat)

/-- Result of processing one client message: the updated connection state,
the server events sent, and the texts handed to speech synthesis. -/
structure StepResult where
  state : WsState
  sent : List ServerMsg
  ttsTexts : List String
deriving Repr

/-- One iteration of the `while True` message loop of `voice_ws`: the
isolation guard (`if msg_sid != session_id: continue`) precedes every
handler; then dispatch on `msg.get("type")`. -/
def voice_ws_handle_message (env : Env) (o : TurnOracles) (session_id : String)
    (s : WsState) (msg : ClientMsg) : StepResult :=
  if msg.session_id != some session_id then
    { state := s, sent := [], ttsTexts := [] }
  else
    match msg.type with
    | some "audio_chunk" =>
      { state := { s with audioStartSet := true,
                          audioBuffer := s.audioBuffer ++ [msg.data.getD ""] },
        sent := [], ttsTexts := [] }
    | some "end_of_speech" =>
      let cost := if s.audioStartSet then track_stt s.cost 1 else s.cost
      let s1 := { s with cost := cost, audioStartSet := false }
      let final_transcript := if o.deepgramConnected then o.transcript else ""
      let turn : String × Bool × LoopState :=
        if pyStrip final_transcript != "" then
          let conv := add_message s1.conv "user" final_transcript
          process_llm_with_tools env o.llm conv s1.st s1.ex s1.cost
        else
          ("", false,
           { conv := s1.conv, st := s1.st, ex := s1.ex, cost := s1.cost,
             sends := [], endConv := false, llmCalls := 0 })
      let ls := turn.2.2
      let response_text := if turn.1 == "" then "I'm listening. Please continue." else turn.1
      let cost2 := track_tts ls.cost response_text.length
      { state := { s1 with conv := ls.conv, st := ls.st, ex := ls.ex, cost := cost2,
                           audioBuffer := [] },
        sent := ls.sends ++ [.audio_response response_text final_transcript turn.2.1],
        ttsTexts := [response_text] }
    | some "end_call" =>
      let cost := match o.summaryUsage with
                  | some u => track_llm s.cost u.1 u.2
                  | none => s.cost
      { state := { s with cost := cost, sessionStatus := "ended" },
        sent := [.call_summary o.summary, .cost_breakdown cost],
        ttsTexts := [] }
    | some "text_input" =>
      let text := pyStrip (msg.text.getD "")
      if text != "" then
        let conv := add_message s.conv "user" text
        let turn := process_llm_with_tools env o.llm conv s.st s.ex s.cost
        let ls := turn.2.2
        let cost2 := track_tts ls.cost turn.1.length
        { state := { s with conv := ls.conv, st := ls.st, ex := ls.ex, cost := cost2 },
          sent := ls.sends ++ [.audio_response turn.1 text turn.2.1],
          ttsTexts := [turn.1] }
      else { state := s, sent := [], ttsTexts := [] }
    | _ => { state := s, sent := [], ttsTexts := [] }

/-! # Verified properties -/

/-! ## Conversation trimming (C2) -/

/-- Arguments of one `add_message` call. -/
structure AddCall where
  role : String
  content : String
  tool_calls : Option (List ToolCall) := none
  tool_call_id : Option String := none
  name : Option String := none
deriving DecidableEq, Repr

def AddCall.stored (a : AddCall) : Message :=
  mkStoredMessage a.role a.content a.tool_calls a.tool_call_id a.name

/-- A sequence of `add_message` calls applied to a conversation. -/
def applyAdds (conv : List Message) (l : List AddCall) : List Message :=
  l.foldl (fun c a => add_message c a.role a.content a.tool_calls a.tool_call_id a.name) conv

theorem ltrimLast_length (n : Nat) (l : List Message) :
    (ltrimLast n l).length = l.length - (l.length - n) := by
  simp [ltrimLast]

theorem add_message_length_le (conv : List Message) (r c : String)
    (tc : Option (List ToolCall)) (ti nm : Option String) :
    (add_message conv r c tc ti nm).length ≤ 100 := by
  simp only [add_message, ltrimLast_length]
  omega

theorem add_message_suffix (conv : List Message) (r c : String)
    (tc : Option (List ToolCall)) (ti nm : Option String) :
    add_message conv r c tc ti nm <:+ conv ++ [mkStoredMessage r c tc ti nm] := by
  simp only [add_message, ltrimLast]
  exact List.drop_suffix _ _

theorem applyAdds_suffix (l : List AddCall) :
    ∀ conv full : List Message, conv <:+ full →
      applyAdds conv l <:+ full ++ l.map AddCall.stored := by
  induction l with
  | nil => intro conv full h; simpa [applyAdds] using h
  | cons a rest ih =>
    intro conv full h
    have h1 : add_message conv a.role a.content a.tool_calls a.tool_call_id a.name <:+
        full ++ [a.stored] := by
      calc add_message conv a.role a.content a.tool_calls a.tool_call_id a.name
          <:+ conv ++ [a.stored] := add_message_suffix ..
        _ <:+ full ++ [a.stored] := by
            obtain ⟨pre, hpre⟩ := h
            exact ⟨pre, by rw [← hpre, List.append_assoc]⟩
    have h2 := ih _ _ h1
    simpa [applyAdds, List.append_assoc] using h2

theorem applyAdds_length_le (l : List AddCall) :
    ∀ conv : List Message, conv.length ≤ 100 → (applyAdds conv l).length ≤ 100 := by
  induction l with
  | nil => intro conv h; simpa [applyAdds] using h
  | cons a rest ih =>
    intro conv h
    have := add_message_length_le conv a.role a.content a.tool_calls a.tool_call_id a.name
    simpa [applyAdds] using ih _ this

/-- C2, amended: after `init_conversation` and any sequence of `add_message`
calls, the stored history never exceeds 100 entries, and trimming keeps the
most recent entries (the stored history is a suffix of the untrimmed
sequence) — so the oldest entries, including the leading system prompt, are
the ones dropped when the cap is hit. -/
theorem conversation_trim_cap_and_keeps_recent (p : String) (l : List AddCall) :
    (applyAdds (init_conversation p) l).length ≤ 100 ∧
    applyAdds (init_conversation p) l <:+ init_conversation p ++ l.map AddCall.stored := by
  exact ⟨applyAdds_length_le l _ (by simp [init_conversation]),
    applyAdds_suffix l _ _ (List.suffix_refl _)⟩

def c2Adds : List AddCall :=
  (List.range 100).map fun i => { role := "user", content := toString i }

set_option maxRecDepth 100000 in
set_option maxHeartbeats 1000000 in
/-- C2, counterexample: starting from `init_conversation "SYS"`, after 100
`add_message` calls the history holds exactly 100 entries but its first
entry is a `"user"` message — `ltrim(key, -100, -1)` evicted the leading
system prompt, contradicting the claim that the system message is never
evicted. -/
theorem conversation_trim_evicts_system_prompt :
    (applyAdds (init_conversation "SYS") c2Adds).length = 100 ∧
    (applyAdds (init_conversation "SYS") c2Adds).head?.map Message.role = some "user" ∧
    ∀ m ∈ applyAdds (init_conversation "SYS") c2Adds, m.role ≠ "system" := by
  decide

/-! ## Agent-loop iteration bound (C3) -/

theorem runToolCalls_llmCalls (env : Env) :
    ∀ (tcs : List ToolCall) (s : LoopState), (runToolCalls env s tcs).llmCalls = s.llmCalls
  | [], _ => rfl
  | _ :: rest, _ => runToolCalls_llmCalls env rest _

theorem process_llm_aux_calls_le (env : Env) (llm : List Message → LLMResp) :
    ∀ (fuel : Nat) (s : LoopState),
      (process_llm_aux env llm fuel s).2.2.llmCalls ≤ s.llmCalls + fuel := by
  intro fuel
  induction fuel with
  | zero => intro s; simp [process_llm_aux]
  | succ n ih =>
    intro s
    simp only [process_llm_aux]
    split
    · refine le_trans (ih _) ?_
      rw [runToolCalls_llmCalls]
      simp only []
      omega
    · simp

theorem process_llm_aux_adversarial (env : Env) (llm : List Message → LLMResp)
    (hadv : ∀ c, (llm c).tool_calls ≠ []) :
    ∀ (fuel : Nat) (s : LoopState), (process_llm_aux env llm fuel s).1 = loopFallbackMessage := by
  intro fuel
  induction fuel with
  | zero => intro s; rfl
  | succ n ih =>
    intro s
    have h : ((llm s.conv).tool_calls.length != 0) = true := by
      simp only [bne_iff_ne, ne_eq, List.length_eq_zero]
      exact hadv s.conv
    simp only [process_llm_aux, h, if_pos]
    exact ih _

/-- C3: one invocation of the websocket tool-calling loop makes at most
`MAX_TOOL_ITERATIONS = 10` LLM calls, for every conversation history, store
and LLM behaviour; and against an adversarial LLM that requests tool calls
on every response, the loop terminates with the fixed apologetic fallback
message instead of looping indefinitely. -/
theorem agent_loop_iteration_bound (env : Env) (llm : List Message → LLMResp)
    (conv : List Message) (st : Store) (ex : Exec) (cost : CostRecord) :
    MAX_TOOL_ITERATIONS = 10 ∧
    (process_llm_with_tools env llm conv st ex cost).2.2.llmCalls ≤ MAX_TOOL_ITERATIONS ∧
    ((∀ c, (llm c).tool_calls ≠ []) →
      (process_llm_with_tools env llm conv st ex cost).1 = loopFallbackMessage) := by
  refine ⟨rfl, ?_, fun hadv => process_llm_aux_adversarial env llm hadv _ _⟩
  simpa [process_llm_with_tools] using
    process_llm_aux_calls_le env llm MAX_TOOL_ITERATIONS
      { conv := conv, st := st, ex := ex, cost := cost, sends := [],
        endConv := false, llmCalls := 0 }

def advLLM : List Message → LLMResp :=
  fun _ => { content := "", tool_calls := [{ id := "call_a", name := "no_such_tool", arguments := [] }] }

def fixtureStore : Store :=
  { appts := [], nextId := 1, users := [], metaUserId := none, metaUserName := none }

def fixtureEnv : Env := { today := { year := 2026, month := 10, day := 12 }, dbCommitError := none }

def fixtureExec : Exec := { user_id := some 7, user_name := some "Amy" }

/-- C3, witness: the adversarial-LLM hypothesis is satisfiable — an oracle
that always requests a tool call drives the loop into the fallback. -/
theorem agent_loop_iteration_bound_witness :
    (∀ c, (advLLM c).tool_calls ≠ []) ∧
    (process_llm_with_tools fixtureEnv advLLM [] fixtureStore fixtureExec CostRecord.zero).1 =
      loopFallbackMessage ∧
    (process_llm_with_tools fixtureEnv advLLM [] fixtureStore fixtureExec
      CostRecord.zero).2.2.llmCalls ≤ MAX_TOOL_ITERATIONS := by
  have h : ∀ c, (advLLM c).tool_calls ≠ [] := fun c => by simp [advLLM]
  exact ⟨h,
    (agent_loop_iteration_bound fixtureEnv advLLM [] fixtureStore fixtureExec
      CostRecord.zero).2.2 h,
    (agent_loop_iteration_bound fixtureEnv advLLM [] fixtureStore fixtureExec
      CostRecord.zero).2.1⟩

/-! ## Session isolation (C7) -/

/-- C7: any client message whose embedded `session_id` differs from the
connection's bound session (including a missing one) is discarded before any
handler runs: the connection state (conversation, store, executor, cost
record, session status, audio buffer) is unchanged, no server event is sent,
and nothing reaches speech synthesis. -/
theorem ws_session_isolation (env : Env) (o : TurnOracles) (sid : String)
    (s : WsState) (msg : ClientMsg) (h : msg.session_id ≠ some sid) :
    voice_ws_handle_message env o sid s msg = { state := s, sent := [], ttsTexts := [] } := by
  simp [voice_ws_handle_message, h]

def fixtureWsState : WsState :=
  { conv := init_conversation "SYS", st := fixtureStore, ex := fixtureExec,
    cost := CostRecord.zero, sessionStatus := "connected", audioBuffer := [],
    audioStartSet := false }

def fixtureOracles : TurnOracles :=
  { llm := fun _ => { content := "Hello!", tool_calls := [] },
    transcript := "book a slot", deepgramConnected := true,
    summary := "s", summaryUsage := none }

/-- C7, witness: a stale `end_call` message carrying a different session id
(and one carrying none) leave the state untouched and send nothing. -/
theorem ws_session_isolation_witness :
    voice_ws_handle_message fixtureEnv fixtureOracles "sess_a" fixtureWsState
        { type := some "end_call", session_id := some "sess_b" } =
      { state := fixtureWsState, sent := [], ttsTexts := [] } ∧
    voice_ws_handle_message fixtureEnv fixtureOracles "sess_a" fixtureWsState
        { type := some "end_call", session_id := none } =
      { state := fixtureWsState, sent := [], ttsTexts := [] } := by
  exact ⟨ws_session_isolation fixtureEnv fixtureOracles "sess_a" fixtureWsState _ (by simp),
    ws_session_isolation fixtureEnv fixtureOracles "sess_a" fixtureWsState _ (by simp)⟩

/-! ## Tool executor totality (C6) -/

/-- C6: for every tool name and argument map, `execute` returns a structured
result; a name with no `_execute_` handler yields the structured
`Unknown tool` failure with no state change, and an exception raised by a
tool implementation is caught at the executor boundary and converted into a
failure result carrying the exception text, again with no state change. -/
theorem execute_totality (env : Env) (ex : Exec) (st : Store) (name : String) (args : Args) :
    (name ∉ knownTools →
      execute env ex st name args = (mkFail ("Unknown tool: " ++ name), st, ex)) ∧
    (∀ e, toolImpl env ex st name args = some (.error e) →
      execute env ex st name args = (mkFail e, st, ex)) := by
  constructor
  · intro h
    have hnone : toolImpl env ex st name args = none := by
      unfold toolImpl
      split
      all_goals first
        | rfl
        | exact absurd (by simp_all [knownTools]) h
    simp [execute, hnone]
  · intro e he
    simp [execute, he]

def bookTomorrowArgs : Args :=
  [("date", .scalar (.str "tomorrow")), ("time", .scalar (.str "2pm"))]

def fixtureEnvDbErr : Env := { fixtureEnv with dbCommitError := some "database connection lost" }

/-- C6, witness: an out-of-vocabulary tool name produces the structured
unknown-tool failure, and a booking whose `db.commit()` raises produces a
failure result carrying the exception text — in both cases the store is
untouched. -/
theorem execute_totality_witness :
    ("frobnicate" ∉ knownTools ∧
      execute fixtureEnv fixtureExec fixtureStore "frobnicate" [] =
        (mkFail "Unknown tool: frobnicate", fixtureStore, fixtureExec)) ∧
    (toolImpl fixtureEnvDbErr fixtureExec fixtureStore "book_appointment" bookTomorrowArgs =
        some (.error "database connection lost") ∧
      execute fixtureEnvDbErr fixtureExec fixtureStore "book_appointment" bookTomorrowArgs =
        (mkFail "database connection lost", fixtureStore, fixtureExec)) := by
  refine ⟨⟨by decide, ?_⟩, ⟨by rfl, ?_⟩⟩
  · exact (execute_totality fixtureEnv fixtureExec fixtureStore "frobnicate" []).1 (by decide)
  · exact (execute_totality fixtureEnvDbErr fixtureExec fixtureStore "book_appointment"
      bookTomorrowArgs).2 "database connection lost" (by rfl)

/-! ## Embedded tool-call parse-failure policy (C8) -/

def c8BadInput : String := "<function=fetch_slots>\x7bbad\x7d</function>"

/-- C8, counterexample: for markup whose payload `\x7bbad\x7d` fails JSON
parsing, `parse_text_tool_calls` does not treat it as "no tool call" — it
extracts one tool call (`fetch_slots`, arguments `{}`), contradicting the
claim that the turn proceeds with zero tool calls from that markup. -/
theorem parse_failure_still_emits_call_counterexample :
    jsonParse "\x7bbad\x7d" = none ∧
    parse_text_tool_calls c8BadInput =
      ("", [{ id := "call_0", name := "fetch_slots", arguments := [] }]) ∧
    (parse_text_tool_calls c8BadInput).2.length = 1 := by
  decide

theorem mem_enum_snd {α : Type} {l : List α} {p : Nat × α} (h : p ∈ l.enum) : p.2 ∈ l := by
  obtain ⟨-, hlt, heq⟩ := List.mem_enumFrom (by simpa [List.enum] using h)
  rw [heq]
  exact List.getElem_mem ..

/-- C8, amended: the text parser emits exactly one tool call per pattern
match whether or not the payload parses as JSON; a payload that fails
`json.loads` yields a call with an empty argument map, and the call markup
is stripped from the returned text — rather than the markup being treated
as no tool call at all. -/
theorem parse_text_tool_calls_emits_per_match (content : String) :
    (parse_text_tool_calls content).2.length = (textToolMatches content).length ∧
    (∀ tc ∈ (parse_text_tool_calls content).2, ∃ m ∈ textToolMatches content,
      tc.name = m.1 ∧
        tc.arguments = (match jsonParse m.2 with
                        | some a => a
                        | none => []) ∧
        (jsonParse m.2 = none → tc.arguments = [])) ∧
    (parse_text_tool_calls content).1 = pyStrip (String.mk (subAll matchCleanP content.toList)) := by
  refine ⟨by simp [parse_text_tool_calls, List.enum_length], ?_, rfl⟩
  intro tc htc
  simp only [parse_text_tool_calls, List.mem_map] at htc
  obtain ⟨p, hp, rfl⟩ := htc
  refine ⟨p.2, mem_enum_snd hp, rfl, rfl, fun hj => by simp [hj]⟩

/-- C8, witness: instantiating the amended theorem on the concrete bad-JSON
markup: one match, one emitted call, and its arguments are empty because
the payload fails to parse. -/
theorem parse_text_tool_calls_emits_per_match_witness :
    (parse_text_tool_calls c8BadInput).2.length = (textToolMatches c8BadInput).length ∧
    ({ id := "call_0", name := "fetch_slots", arguments := [] } : ToolCall) ∈
      (parse_text_tool_calls c8BadInput).2 ∧
    (∃ m ∈ textToolMatches c8BadInput,
      ({ id := "call_0", name := "fetch_slots", arguments := [] } : ToolCall).name = m.1 ∧
        ({ id := "call_0", name := "fetch_slots", arguments := [] } : ToolCall).arguments =
          (match jsonParse m.2 with
           | some a => a
           | none => []) ∧
        (jsonParse m.2 = none →
          ({ id := "call_0", name := "fetch_slots", arguments := [] } : ToolCall).arguments = [])) := by
  refine ⟨(parse_text_tool_calls_emits_per_match c8BadInput).1, by decide, ?_⟩
  exact (parse_text_tool_calls_emits_per_match c8BadInput).2.1 _ (by decide)

/-! ## Residual tool-call markup in spoken text (C9) -/

def c9Markup : String :=
  "Let me check. <function=fetch_slots>\x7b\"date\": \"2026-01-22\"\x7d</function>"

def c9Oracles : TurnOracles :=
  { llm := fun _ => { content := c9Markup, tool_calls := [] },
    transcript := "what slots are open", deepgramConnected := true,
    summary := "s", summaryUsage := none }

/-- C9, counterexample: in the websocket turn path, an LLM response that
carries tool-call markup as plain text (with no structured tool calls) is
handed to speech synthesis verbatim — `voice.py` never strips the markup —
while `clean_response_for_speech` (which only the LLM-proxy path applies)
would have removed it. -/
theorem spoken_text_keeps_markup_counterexample :
    (voice_ws_handle_message fixtureEnv c9Oracles "sess_a" fixtureWsState
        { type := some "end_of_speech", session_id := some "sess_a" }).ttsTexts =
      [c9Markup] ∧
    substrOf "<function=" c9Markup = true ∧
    clean_response_for_speech c9Markup = "Let me check." := by
  decide

theorem process_llm_aux_first_no_tools (env : Env) (llm : List Message → LLMResp)
    (fuel : Nat) (s : LoopState) (h : (llm s.conv).tool_calls = []) :
    (process_llm_aux env llm (fuel + 1) s).1 =
      (if (llm s.conv).content == "" then emptyContentFallback else (llm s.conv).content) := by
  simp only [process_llm_aux, h, List.length_nil, bne_self_eq_false, Bool.false_eq_true,
    if_false]

theorem proxy_llm_aux_first_no_tools (env : Env) (llm : List Message → LLMResp)
    (fuel : Nat) (msgs : List Message) (st : Store) (ex : Exec) (calls : Nat)
    (h : (llm msgs).tool_calls = []) :
    (proxy_llm_aux env llm false (fuel + 1) msgs st ex calls).1 =
      clean_response_for_speech
        (if (llm msgs).content == "" then "I'm sorry, I couldn't generate a response."
         else (llm msgs).content) := by
  simp only [proxy_llm_aux, h, List.length_nil, beq_self_eq_true, Bool.true_and,
    Bool.false_and, Bool.and_false, Bool.false_eq_true, if_false, bne_self_eq_false]

theorem process_llm_with_tools_no_tools (env : Env) (llm : List Message → LLMResp)
    (conv : List Message) (st : Store) (ex : Exec) (cost : CostRecord)
    (h : (llm conv).tool_calls = []) (hc : (llm conv).content ≠ "") :
    (process_llm_with_tools env llm conv st ex cost).1 = (llm conv).content := by
  have hstep := process_llm_aux_first_no_tools env llm 9
    { conv := conv, st := st, ex := ex, cost := cost, sends := [], endConv := false,
      llmCalls := 0 } (by simpa using h)
  have hc2 : ((llm conv).content == "") = false := by simpa using hc
  simp only [process_llm_with_tools, MAX_TOOL_ITERATIONS,
    show (10 : Nat) = 9 + 1 from rfl]
  simp only [hstep, hc2, Bool.false_eq_true, if_false]

/-- C9, amended: only the LLM-proxy path strips tool-call markup before
speech — its final response always passes through
`clean_response_for_speech`; the websocket turn path hands the LLM's
tool-call-free response text to speech synthesis verbatim, markup
included. -/
theorem speech_markup_stripping_only_in_proxy (env : Env) (o : TurnOracles) (sid : String)
    (s : WsState) (llm : List Message → LLMResp) (msgs : List Message)
    (st : Store) (ex : Exec)
    (hdg : o.deepgramConnected = true)
    (htr : pyStrip o.transcript ≠ "")
    (htc : (o.llm (add_message s.conv "user" o.transcript)).tool_calls = [])
    (hct : (o.llm (add_message s.conv "user" o.transcript)).content ≠ "")
    (htc2 : (llm msgs).tool_calls = []) :
    (voice_ws_handle_message env o sid s
        { type := some "end_of_speech", session_id := some sid }).ttsTexts =
      [(o.llm (add_message s.conv "user" o.transcript)).content] ∧
    (proxy_process env llm false msgs st ex).1 =
      clean_response_for_speech
        (if (llm msgs).content == "" then "I'm sorry, I couldn't generate a response."
         else (llm msgs).content) := by
  constructor
  · have htr2 : (pyStrip o.transcript != "") = true := by simpa using htr
    have hct2 : ((o.llm (add_message s.conv "user" o.transcript)).content == "") = false := by
      simpa using hct
    have hmain := process_llm_with_tools_no_tools env o.llm
      (add_message s.conv "user" o.transcript) s.st s.ex
      (if s.audioStartSet then track_stt s.cost 1 else s.cost) htc hct
    simp [voice_ws_handle_message, hdg, htr2, hmain, hct2]
  · exact proxy_llm_aux_first_no_tools env llm 4 msgs st ex 0 htc2

def c9ProxyLLM : List Message → LLMResp :=
  fun _ => { content := c9Markup, tool_calls := [] }

/-- C9, witness: on the concrete markup-bearing response, the websocket path
speaks the markup verbatim while the proxy path returns the stripped
text. -/
theorem speech_markup_stripping_only_in_proxy_witness :
    (voice_ws_handle_message fixtureEnv c9Oracles "sess_a" fixtureWsState
        { type := some "end_of_speech", session_id := some "sess_a" }).ttsTexts = [c9Markup] ∧
    (proxy_process fixtureEnv c9ProxyLLM false [] fixtureStore fixtureExec).1 =
      "Let me check." := by
  have h := speech_markup_stripping_only_in_proxy fixtureEnv c9Oracles "sess_a" fixtureWsState
    c9ProxyLLM [] fixtureStore fixtureExec (by decide) (by decide) (by decide) (by decide)
    (by decide)
  exact ⟨h.1, by rw [h.2]; decide⟩

/-! ## Cancel semantics (C5) -/

theorem updateApptById_length (l : List Appointment) (i : Nat) (f : Appointment → Appointment) :
    (updateApptById l i f).length = l.length := by
  induction l with
  | nil => rfl
  | cons c t ih => by_cases h : (c.id == i) = true <;> simp [updateApptById, h, ih]

theorem find?_updateApptById_cancel (l : List Appointment) (n : Int) (a : Appointment)
    (h : l.find? (fun x => ((x.id : Int) == n)) = some a) :
    (updateApptById l a.id fun x => { x with status := "cancelled" }).find?
      (fun x => ((x.id : Int) == n)) = some { a with status := "cancelled" } := by
  induction l with
  | nil => simp at h
  | cons c t ih =>
    by_cases hc : (((c.id : Int) == n) = true)
    · simp only [List.find?_cons, hc, if_true] at h
      injection h with h
      subst h
      simp only [updateApptById, beq_self_eq_true, if_true, List.find?_cons, hc]
    · simp only [List.find?_cons, hc, Bool.false_eq_true, if_false] at h
      have ha := List.find?_some h
      have hne : (c.id == a.id) = false := by
        simp only [beq_iff_eq] at ha hc
        simp only [beq_eq_false_iff_ne, ne_eq]
        intro hcc
        exact hc (by rw [hcc, ha])
      simp only [updateApptById, hne, Bool.false_eq_true, if_false, List.find?_cons, hc]
      exact ih h

def cancelArgs (idStr : String) : Args := [("appointment_id", .scalar (.str idStr))]

/-- The success dict of `_execute_cancel_appointment`. -/
def cancelOkResult (idStr : String) (a : Appointment) : ToolResult :=
  { success := true, appointment_id := some idStr, date := some a.appointment_date,
    time := some a.appointment_time,
    message := some ("Appointment on " ++ a.appointment_date ++ " at " ++
      a.appointment_time ++ " has been cancelled.") }

theorem cancel_not_found (env : Env) (ex : Exec) (st : Store) (idStr : String) (n : Int)
    (hAuth : optNatTruthy ex.user_id = true)
    (hn : pyInt idStr = some n)
    (hfind : st.appts.find? (fun x => ((x.id : Int) == n)) = none) :
    execute env ex st "cancel_appointment" (cancelArgs idStr) =
      (mkFail ("Appointment " ++ idStr ++ " not found."), st, ex) := by
  simp [execute, toolImpl, execute_cancel_appointment, cancelArgs, argGetStrLike, argLookup,
    get_current_user_id, hAuth, hn, hfind, Bind.bind, Except.bind, Pure.pure, Except.pure]

theorem cancel_already_cancelled (env : Env) (ex : Exec) (st : Store) (idStr : String)
    (n : Int) (a : Appointment)
    (hAuth : optNatTruthy ex.user_id = true)
    (hn : pyInt idStr = some n)
    (hfind : st.appts.find? (fun x => ((x.id : Int) == n)) = some a)
    (hown : a.user_id = ex.user_id.getD 0)
    (hcanc : a.status = "cancelled") :
    execute env ex st "cancel_appointment" (cancelArgs idStr) =
      (mkFail "This appointment is already cancelled.", st, ex) := by
  simp [execute, toolImpl, execute_cancel_appointment, cancelArgs, argGetStrLike, argLookup,
    get_current_user_id, hAuth, hn, hfind, hown, hcanc,
    Bind.bind, Except.bind, Pure.pure, Except.pure]

theorem cancel_success (env : Env) (ex : Exec) (st : Store) (idStr : String)
    (n : Int) (a : Appointment)
    (hAuth : optNatTruthy ex.user_id = true)
    (hn : pyInt idStr = some n)
    (hfind : st.appts.find? (fun x => ((x.id : Int) == n)) = some a)
    (hown : a.user_id = ex.user_id.getD 0)
    (hsch : a.status ≠ "cancelled")
    (hdb : env.dbCommitError = none) :
    execute env ex st "cancel_appointment" (cancelArgs idStr) =
      (cancelOkResult idStr a,
       { st with appts := updateApptById st.appts a.id fun x => { x with status := "cancelled" } },
       ex) := by
  simp [execute, toolImpl, execute_cancel_appointment, cancelArgs, argGetStrLike, argLookup,
    get_current_user_id, hAuth, hn, hfind, hown, hsch, hdb, cancelOkResult,
    Bind.bind, Except.bind, Pure.pure, Except.pure]

/-- C5: for an authenticated user, cancelling a parsable id not present in
the store returns exactly the `Appointment <id> not found.` failure with no
mutation; cancelling an already-cancelled appointment returns a failure with
no mutation; a successful cancel only flips the status to `cancelled`
(record count preserved, nothing deleted), and an immediately repeated
cancel of the same id reports failure without further state change. -/
theorem cancel_appointment_semantics (env : Env) (ex : Exec) (st : Store) (idStr : String)
    (hAuth : optNatTruthy ex.user_id = true) :
    (∀ n, pyInt idStr = some n →
      st.appts.find? (fun x => ((x.id : Int) == n)) = none →
      execute env ex st "cancel_appointment" (cancelArgs idStr) =
        (mkFail ("Appointment " ++ idStr ++ " not found."), st, ex)) ∧
    (∀ n a, pyInt idStr = some n →
      st.appts.find? (fun x => ((x.id : Int) == n)) = some a →
      a.user_id = ex.user_id.getD 0 → a.status = "cancelled" →
      execute env ex st "cancel_appointment" (cancelArgs idStr) =
        (mkFail "This appointment is already cancelled.", st, ex)) ∧
    (∀ n a, pyInt idStr = some n →
      st.appts.find? (fun x => ((x.id : Int) == n)) = some a →
      a.user_id = ex.user_id.getD 0 → a.status ≠ "cancelled" → env.dbCommitError = none →
      let st2 : Store :=
        { st with appts := updateApptById st.appts a.id fun x => { x with status := "cancelled" } }
      execute env ex st "cancel_appointment" (cancelArgs idStr) = (cancelOkResult idStr a, st2, ex) ∧
      st2.appts.length = st.appts.length ∧
      execute env ex st2 "cancel_appointment" (cancelArgs idStr) =
        (mkFail "This appointment is already cancelled.", st2, ex)) := by
  refine ⟨fun n hn hfind => cancel_not_found env ex st idStr n hAuth hn hfind,
    fun n a hn hfind hown hcanc =>
      cancel_already_cancelled env ex st idStr n a hAuth hn hfind hown hcanc,
    fun n a hn hfind hown hsch hdb => ?_⟩
  intro st2
  refine ⟨cancel_success env ex st idStr n a hAuth hn hfind hown hsch hdb,
    updateApptById_length .., ?_⟩
  exact cancel_already_cancelled env ex st2 idStr n { a with status := "cancelled" } hAuth hn
    (find?_updateApptById_cancel st.appts n a hfind) hown rfl

def c5Appt : Appointment :=
  { id := 1, user_id := 7, appointment_date := "2026-11-05",
    appointment_time := "09:00", status := "scheduled", purpose := "checkup" }

def c5Store : Store :=
  { appts := [c5Appt], nextId := 2, users := [], metaUserId := none, metaUserName := none }

/-- C5, witness: with one scheduled appointment (id 1) owned by user 7,
`cancel_appointment("999")` returns exactly the `Appointment 999 not found.`
failure leaving the store as-is; cancelling id 1 succeeds flipping only its
status, and a second cancel of id 1 reports failure without change. -/
theorem cancel_appointment_semantics_witness :
    execute fixtureEnv fixtureExec c5Store "cancel_appointment" (cancelArgs "999") =
      (mkFail "Appointment 999 not found.", c5Store, fixtureExec) ∧
    execute fixtureEnv fixtureExec c5Store "cancel_appointment" (cancelArgs "1") =
      (cancelOkResult "1" c5Appt,
       { c5Store with appts := (updateApptById c5Store.appts 1
           fun x => { x with status := "cancelled" }) }, fixtureExec) ∧
    execute fixtureEnv fixtureExec
        { c5Store with appts := (updateApptById c5Store.appts 1
            fun x => { x with status := "cancelled" }) }
        "cancel_appointment" (cancelArgs "1") =
      (mkFail "This appointment is already cancelled.",
       { c5Store with appts := (updateApptById c5Store.appts 1
           fun x => { x with status := "cancelled" }) }, fixtureExec) := by
  have h := cancel_appointment_semantics fixtureEnv fixtureExec c5Store "999" (by decide)
  have h1 := cancel_appointment_semantics fixtureEnv fixtureExec c5Store "1" (by decide)
  refine ⟨h.1 999 (by decide) (by decide), ?_, ?_⟩
  · exact (h1.2.2 1 c5Appt (by decide) (by decide) (by decide)
      (by decide) (by decide)).1
  · exact (h1.2.2 1 c5Appt (by decide) (by decide) (by decide)
      (by decide) (by decide)).2.2

/-! ## No-double-booking invariant (C1) and slot partition (C4) -/
def mkBooked (i uid : Nat) (d t pu : String) : Appointment :=
  { id := i, user_id := uid, appointment_date := d, appointment_time := t,
    status := "scheduled", purpose := pu }

def bookDelta (st st2 : Store) : Prop :=
  ∃ uid pu d t, st2.appts = st.appts ++ [mkBooked st.nextId uid d t pu] ∧
    st2.nextId = st.nextId + 1 ∧
    AVAILABLE_SLOTS.contains t = true ∧
    (get_booked_slots_from_db st d none).contains t = false

theorem execute_book_ok (env : Env) (ex : Exec) (st : Store) (args : Args)
    (r : ToolResult × Store × Exec)
    (h : execute_book_appointment env ex st args = .ok r) :
    r.2.1 = st ∨ bookDelta st r.2.1 := by
  unfold execute_book_appointment at h
  simp only [Bind.bind, Except.bind, Pure.pure, Except.pure] at h
  repeat' split at h
  all_goals first
    | exact Except.noConfusion h
    | (injection h with h; rw [← h]; exact Or.inl rfl)
    | (injection h with h; rw [← h];
       exact Or.inr ⟨_, _, _, _, rfl, rfl, by simp_all, by simp_all⟩)

def cancelDelta (st st2 : Store) : Prop :=
  ∃ i, st2.appts = updateApptById st.appts i (fun x => { x with status := "cancelled" }) ∧
    st2.nextId = st.nextId

theorem execute_cancel_ok (env : Env) (ex : Exec) (st : Store) (args : Args)
    (r : ToolResult × Store × Exec)
    (h : execute_cancel_appointment env ex st args = .ok r) :
    r.2.1 = st ∨ cancelDelta st r.2.1 := by
  unfold execute_cancel_appointment at h
  simp only [Bind.bind, Except.bind, Pure.pure, Except.pure] at h
  repeat' split at h
  all_goals first
    | exact Except.noConfusion h
    | (injection h with h; rw [← h]; exact Or.inl rfl)
    | (injection h with h; rw [← h]; exact Or.inr ⟨_, rfl, rfl⟩)

theorem modifyTargetTime_ok (ap : Appointment) (new_time : Option String) (T : String)
    (h : modifyTargetTime ap new_time = .ok T) :
    AVAILABLE_SLOTS.contains T = true ∨ T = ap.appointment_time := by
  unfold modifyTargetTime at h
  repeat' split at h
  all_goals first
    | exact Except.noConfusion h
    | (injection h with h; subst h; exact Or.inr rfl)
    | (injection h with h; subst h; exact Or.inl (by simp_all))

def modifyDelta (st st2 : Store) : Prop :=
  ∃ n a D T, st.appts.find? (fun x => ((x.id : Int) == n)) = some a ∧
    st2.appts = updateApptById st.appts a.id
      (fun x => { x with appointment_date := D, appointment_time := T }) ∧
    st2.nextId = st.nextId ∧
    (get_booked_slots_from_db st D (some n)).contains T = false ∧
    (AVAILABLE_SLOTS.contains T = true ∨ T = a.appointment_time)

theorem execute_modify_ok (env : Env) (ex : Exec) (st : Store) (args : Args)
    (r : ToolResult × Store × Exec)
    (h : execute_modify_appointment env ex st args = .ok r) :
    r.2.1 = st ∨ modifyDelta st r.2.1 := by
  unfold execute_modify_appointment at h
  simp only [Bind.bind, Except.bind, Pure.pure, Except.pure] at h
  repeat' split at h
  all_goals first
    | exact Except.noConfusion h
    | (injection h with h; rw [← h]; exact Or.inl rfl)
    | (injection h with h; rw [← h];
       refine Or.inr ⟨_, _, _, _, by assumption, rfl, rfl, by simp_all,
         modifyTargetTime_ok _ _ _ (by assumption)⟩)

theorem execute_identify_ok (env : Env) (ex : Exec) (st : Store) (args : Args)
    (r : ToolResult × Store × Exec)
    (h : execute_identify_user env ex st args = .ok r) :
    r.2.1.appts = st.appts ∧ r.2.1.nextId = st.nextId := by
  unfold execute_identify_user at h
  simp only [Bind.bind, Except.bind, Pure.pure, Except.pure] at h
  repeat' split at h
  all_goals first
    | exact Except.noConfusion h
    | (injection h with h; rw [← h]; exact ⟨rfl, rfl⟩)

theorem execute_fetch_ok (env : Env) (ex : Exec) (st : Store) (args : Args)
    (r : ToolResult × Store × Exec)
    (h : execute_fetch_slots env ex st args = .ok r) : r.2.1 = st := by
  unfold execute_fetch_slots at h
  simp only [Bind.bind, Except.bind, Pure.pure, Except.pure] at h
  repeat' split at h
  all_goals first
    | exact Except.noConfusion h
    | (injection h with h; rw [← h])

theorem execute_retrieve_ok (env : Env) (ex : Exec) (st : Store) (args : Args)
    (r : ToolResult × Store × Exec)
    (h : execute_retrieve_appointments env ex st args = .ok r) : r.2.1 = st := by
  unfold execute_retrieve_appointments at h
  simp only [Bind.bind, Except.bind, Pure.pure, Except.pure] at h
  repeat' split at h
  all_goals first
    | exact Except.noConfusion h
    | (injection h with h; rw [← h])

theorem execute_end_conversation_ok (env : Env) (ex : Exec) (st : Store) (args : Args)
    (r : ToolResult × Store × Exec)
    (h : execute_end_conversation env ex st args = .ok r) : r.2.1 = st := by
  unfold execute_end_conversation at h
  simp only [Bind.bind, Except.bind, Pure.pure, Except.pure] at h
  repeat' split at h
  all_goals first
    | exact Except.noConfusion h
    | (injection h with h; rw [← h])

/-- Characterization of how one `execute` call can change the appointment
table: not at all, a catalog-validated availability-checked insert (book), a
status flip to cancelled (cancel), or an availability-checked reslotting of
one found appointment (modify). -/
theorem execute_appts_delta (env : Env) (ex : Exec) (st : Store) (name : String) (args : Args) :
    ((execute env ex st name args).2.1.appts = st.appts ∧
     (execute env ex st name args).2.1.nextId = st.nextId) ∨
    bookDelta st (execute env ex st name args).2.1 ∨
    cancelDelta st (execute env ex st name args).2.1 ∨
    modifyDelta st (execute env ex st name args).2.1 := by
  rcases hti : toolImpl env ex st name args with _ | tm
  · simp [execute, hti]
  · rcases tm with e | r
    · simp [execute, hti]
    · have hexec : execute env ex st name args = r := by simp [execute, hti]
      rw [hexec]
      unfold toolImpl at hti
      split at hti
      · exact Or.inl (execute_identify_ok env ex st args r (by injection hti))
      · exact Or.inl (by rw [execute_fetch_ok env ex st args r (by injection hti)]; exact ⟨rfl, rfl⟩)
      · rcases execute_book_ok env ex st args r (by injection hti) with hsame | hd
        · exact Or.inl (by rw [hsame]; exact ⟨rfl, rfl⟩)
        · exact Or.inr (Or.inl hd)
      · exact Or.inl (by rw [execute_retrieve_ok env ex st args r (by injection hti)]; exact ⟨rfl, rfl⟩)
      · rcases execute_cancel_ok env ex st args r (by injection hti) with hsame | hd
        · exact Or.inl (by rw [hsame]; exact ⟨rfl, rfl⟩)
        · exact Or.inr (Or.inr (Or.inl hd))
      · rcases execute_modify_ok env ex st args r (by injection hti) with hsame | hd
        · exact Or.inl (by rw [hsame]; exact ⟨rfl, rfl⟩)
        · exact Or.inr (Or.inr (Or.inr hd))
      · exact Or.inl (by rw [execute_end_conversation_ok env ex st args r (by injection hti)]; exact ⟨rfl, rfl⟩)
      · exact Option.noConfusion hti

def NoDoubleBooking (l : List Appointment) : Prop :=
  l.Pairwise fun a b =>
    ¬(a.status = "scheduled" ∧ b.status = "scheduled" ∧
      a.appointment_date = b.appointment_date ∧ a.appointment_time = b.appointment_time)

def StoreWF (st : Store) : Prop :=
  NoDoubleBooking st.appts ∧
  (st.appts.map Appointment.id).Nodup ∧
  (∀ a ∈ st.appts, a.id < st.nextId)

def TimesInCatalog (st : Store) : Prop :=
  ∀ a ∈ st.appts, a.appointment_time ∈ AVAILABLE_SLOTS

theorem not_booked_of_contains_false {st : Store} {d t : String} {excl : Option Int}
    (h : (get_booked_slots_from_db st d excl).contains t = false) :
    ∀ a ∈ st.appts, a.appointment_date = d → a.status = "scheduled" →
      (match excl with
       | none => True
       | some e => (a.id : Int) ≠ e) →
      a.appointment_time ≠ t := by
  intro a ha hd hs hexcl ht
  have hmem : t ∈ get_booked_slots_from_db st d excl := by
    simp only [get_booked_slots_from_db, List.mem_map, List.mem_filter]
    refine ⟨a, ⟨ha, ?_⟩, ht⟩
    cases excl with
    | none => simp [hd, hs]
    | some e =>
      simp only [] at hexcl
      by_cases he : (e == 0) = true
      · simp [hd, hs, he]
      · simp only [beq_iff_eq] at he
        simp [hd, hs, he, bne_iff_ne, hexcl]
  simp at h
  exact h hmem

theorem mem_updateApptById {l : List Appointment} {i : Nat} {f : Appointment → Appointment}
    {x : Appointment} (h : x ∈ updateApptById l i f) :
    x ∈ l ∨ ∃ b ∈ l, b.id = i ∧ x = f b := by
  induction l with
  | nil => simp [updateApptById] at h
  | cons c t ih =>
    by_cases hc : (c.id == i) = true
    · simp only [updateApptById, hc, if_true, List.mem_cons] at h
      rcases h with h | h
      · exact Or.inr ⟨c, by simp, by simpa using hc, h⟩

      · exact Or.inl (List.mem_cons_of_mem _ h)
    · simp only [updateApptById, hc, Bool.false_eq_true, if_false, List.mem_cons] at h
      rcases h with h | h
      · exact Or.inl (by simp [h])
      · rcases ih h with h2 | ⟨b, hb, hbi, hbx⟩
        · exact Or.inl (List.mem_cons_of_mem _ h2)
        · exact Or.inr ⟨b, List.mem_cons_of_mem _ hb, hbi, hbx⟩

theorem map_id_updateApptById (l : List Appointment) (i : Nat) (f : Appointment → Appointment)
    (hf : ∀ b, (f b).id = b.id) :
    (updateApptById l i f).map Appointment.id = l.map Appointment.id := by
  induction l with
  | nil => rfl
  | cons c t ih =>
    by_cases hc : (c.id == i) = true
    · simp [updateApptById, hc, hf]
    · simp [updateApptById, hc, ih]

def RNoDouble (a b : Appointment) : Prop :=
  ¬(a.status = "scheduled" ∧ b.status = "scheduled" ∧
    a.appointment_date = b.appointment_date ∧ a.appointment_time = b.appointment_time)

theorem RNoDouble_symm {a b : Appointment} (h : RNoDouble a b) : RNoDouble b a := by
  intro ⟨h1, h2, h3, h4⟩
  exact h ⟨h2, h1, h3.symm, h4.symm⟩

theorem noDoubleBooking_iff (l : List Appointment) :
    NoDoubleBooking l ↔ l.Pairwise RNoDouble := Iff.rfl

theorem pairwise_middle_replace {α : Type} {R : α → α → Prop}
    (hsym : ∀ x y, R x y → R y x) (l₁ l₂ : List α) (a a2 : α)
    (hp : (l₁ ++ a :: l₂).Pairwise R)
    (ha2 : ∀ b, b ∈ l₁ ∨ b ∈ l₂ → R a2 b) :
    (l₁ ++ a2 :: l₂).Pairwise R := by
  rw [List.pairwise_append] at hp ⊢
  rw [List.pairwise_cons] at hp ⊢
  obtain ⟨hp1, ⟨hpa, hp2⟩, hcross⟩ := hp
  refine ⟨hp1, ⟨fun b hb => ha2 b (Or.inr hb), hp2⟩, ?_⟩
  intro x hx y hy
  rcases List.mem_cons.mp hy with rfl | hy2
  · exact hsym _ _ (ha2 x (Or.inl hx))
  · exact hcross x hx y (List.mem_cons_of_mem _ hy2)

theorem find?_update_decomp (l : List Appointment) (n : Int) (a : Appointment)
    (f : Appointment → Appointment)
    (h : l.find? (fun x => ((x.id : Int) == n)) = some a) :
    ∃ l₁ l₂, l = l₁ ++ a :: l₂ ∧
      updateApptById l a.id f = l₁ ++ f a :: l₂ ∧
      ∀ b ∈ l₁, ((b.id : Int) ≠ n) := by
  induction l with
  | nil => simp at h
  | cons c t ih =>
    by_cases hc : (((c.id : Int) == n) = true)
    · simp only [List.find?_cons, hc, if_true] at h
      injection h with h
      subst h
      exact ⟨[], t, rfl, by simp [updateApptById], by simp⟩
    · simp only [List.find?_cons, hc, Bool.false_eq_true, if_false] at h
      obtain ⟨l₁, l₂, hl, hu, hb⟩ := ih h
      have ha := List.find?_some h
      have hne : (c.id == a.id) = false := by
        simp only [beq_iff_eq] at ha hc
        simp only [beq_eq_false_iff_ne, ne_eq]
        intro hcc
        exact hc (by rw [hcc, ha])
      refine ⟨c :: l₁, l₂, by rw [List.cons_append, hl], ?_, ?_⟩
      · simp only [updateApptById, hne, Bool.false_eq_true, if_false, List.cons_append]
        rw [hu]
      · intro b hb2
        rcases List.mem_cons.mp hb2 with rfl | hbm
        · simpa using hc
        · exact hb b hbm

theorem noDouble_update_cancel (l : List Appointment) (i : Nat)
    (hp : NoDoubleBooking l) :
    NoDoubleBooking (updateApptById l i fun x => { x with status := "cancelled" }) := by
  rw [noDoubleBooking_iff] at hp ⊢
  induction l with
  | nil => simp [updateApptById]
  | cons c t ih =>
    rw [List.pairwise_cons] at hp
    by_cases hc : (c.id == i) = true
    · simp only [updateApptById, hc, if_true]
      rw [List.pairwise_cons]
      refine ⟨fun b _ => ?_, hp.2⟩
      intro ⟨h1, _⟩
      simp at h1
    · simp only [updateApptById, hc, Bool.false_eq_true, if_false]
      rw [List.pairwise_cons]
      refine ⟨fun b hb => ?_, ih hp.2⟩
      rcases mem_updateApptById hb with hbm | ⟨b0, hb0, _, rfl⟩
      · exact hp.1 b hbm
      · intro ⟨_, h2, _⟩
        simp at h2

theorem storeWF_book (st st2 : Store) (hwf : StoreWF st) (hd : bookDelta st st2) : StoreWF st2 := by
  obtain ⟨hnd, hids, hlt⟩ := hwf
  obtain ⟨uid, pu, d, t, happ, hnext, hcat, hbook⟩ := hd
  have hnew : ∀ a ∈ st.appts, RNoDouble a (mkBooked st.nextId uid d t pu) := by
    intro a ha h
    obtain ⟨h1, h2, h3, h4⟩ := h
    exact not_booked_of_contains_false hbook a ha (by simpa [mkBooked] using h3) h1 trivial
      (by simpa [mkBooked] using h4)
  refine ⟨?_, ?_, ?_⟩
  · rw [noDoubleBooking_iff, happ]
    rw [List.pairwise_append]
    exact ⟨(noDoubleBooking_iff _).mp hnd, List.pairwise_singleton _ _,
      fun a ha b hb => by rw [List.mem_singleton.mp hb]; exact hnew a ha⟩
  · rw [happ, List.map_append]
    simp only [List.map_cons, List.map_nil, mkBooked]
    rw [List.nodup_append]
    refine ⟨hids, List.nodup_singleton _, ?_⟩
    intro x hx hmem
    rw [List.mem_singleton] at hmem
    subst hmem
    simp only [List.mem_map] at hx
    obtain ⟨a, ha, haid⟩ := hx
    have := hlt a ha
    omega
  · intro a ha
    rw [happ] at ha
    rw [hnext]
    rcases List.mem_append.mp ha with h | h
    · exact Nat.lt_succ_of_lt (hlt a h)
    · rw [List.mem_singleton.mp h]
      exact Nat.lt_succ_self _

theorem storeWF_cancel (st st2 : Store) (hwf : StoreWF st) (hd : cancelDelta st st2) :
    StoreWF st2 := by
  obtain ⟨hnd, hids, hlt⟩ := hwf
  obtain ⟨i, happ, hnext⟩ := hd
  refine ⟨?_, ?_, ?_⟩
  · rw [happ]; exact noDouble_update_cancel _ _ hnd
  · rw [happ, map_id_updateApptById st.appts i
      (fun x => { x with status := "cancelled" }) (fun b => rfl)]
    exact hids
  · intro a ha
    rw [happ] at ha
    rw [hnext]
    rcases mem_updateApptById ha with h | ⟨b, hb, _, rfl⟩
    · exact hlt a h
    · exact hlt b hb

theorem storeWF_modify (st st2 : Store) (hwf : StoreWF st) (hd : modifyDelta st st2) :
    StoreWF st2 := by
  obtain ⟨hnd, hids, hlt⟩ := hwf
  obtain ⟨n, a, D, T, hfind, happ, hnext, hbook, _⟩ := hd
  obtain ⟨l₁, l₂, hl, hu, hexc⟩ := find?_update_decomp st.appts n a _ hfind
  have han : (a.id : Int) = n := by simpa using List.find?_some hfind
  have hl2ne : ∀ b ∈ l₂, b.id ≠ a.id := by
    have h2 := hids
    rw [hl] at h2
    simp only [List.map_append, List.map_cons, List.nodup_append, List.nodup_cons] at h2
    intro b hb hcon
    exact h2.2.1.1 (by rw [← hcon]; exact List.mem_map_of_mem _ hb)
  refine ⟨?_, ?_, ?_⟩
  · rw [noDoubleBooking_iff, happ, hu]
    refine pairwise_middle_replace (fun x y => RNoDouble_symm) l₁ l₂ a _
      (by rw [← hl]; exact (noDoubleBooking_iff _).mp hnd) ?_
    intro b hb h
    obtain ⟨h1, h2, h3, h4⟩ := h
    have hbmem : b ∈ st.appts := by
      rw [hl]
      rcases hb with hb | hb
      · exact List.mem_append_left _ hb
      · exact List.mem_append_right _ (List.mem_cons_of_mem _ hb)
    have hbne : (b.id : Int) ≠ n := by
      rcases hb with hb | hb
      · exact hexc b hb
      · rw [← han]
        intro hcon
        exact hl2ne b hb (by exact_mod_cast hcon)
    exact not_booked_of_contains_false hbook b hbmem (by simpa using h3.symm) h2 hbne
      (by simpa using h4.symm)
  · rw [happ, map_id_updateApptById st.appts a.id
      (fun x => { x with appointment_date := D, appointment_time := T }) (fun b => rfl)]
    exact hids
  · intro x hx
    rw [happ] at hx
    rw [hnext]
    rcases mem_updateApptById hx with h | ⟨b, hb, _, rfl⟩
    · exact hlt x h
    · exact hlt b hb

theorem execute_preserves_StoreWF (env : Env) (ex : Exec) (st : Store) (name : String)
    (args : Args) (h : StoreWF st) : StoreWF (execute env ex st name args).2.1 := by
  rcases execute_appts_delta env ex st name args with ⟨ha, hn⟩ | hd | hd | hd
  · obtain ⟨h1, h2, h3⟩ := h
    exact ⟨by rw [ha]; exact h1, by rw [ha]; exact h2,
      fun a hm => by rw [hn]; exact h3 a (ha ▸ hm)⟩
  · exact storeWF_book _ _ h hd
  · exact storeWF_cancel _ _ h hd
  · exact storeWF_modify _ _ h hd

theorem times_book (st st2 : Store) (ht : TimesInCatalog st) (hd : bookDelta st st2) :
    TimesInCatalog st2 := by
  obtain ⟨uid, pu, d, t, happ, _, hcat, _⟩ := hd
  intro a ha
  rw [happ] at ha
  rcases List.mem_append.mp ha with h | h
  · exact ht a h
  · rw [List.mem_singleton.mp h]
    simpa [mkBooked] using hcat

theorem times_cancel (st st2 : Store) (ht : TimesInCatalog st) (hd : cancelDelta st st2) :
    TimesInCatalog st2 := by
  obtain ⟨i, happ, _⟩ := hd
  intro a ha
  rw [happ] at ha
  rcases mem_updateApptById ha with h | ⟨b, hb, _, rfl⟩
  · exact ht a h
  · exact ht b hb

theorem times_modify (st st2 : Store) (ht : TimesInCatalog st) (hd : modifyDelta st st2) :
    TimesInCatalog st2 := by
  obtain ⟨n, a, D, T, hfind, happ, _, _, hT⟩ := hd
  have haT : T ∈ AVAILABLE_SLOTS := by
    rcases hT with h | h
    · simpa using h
    · rw [h]; exact ht a (List.mem_of_find?_eq_some hfind)
  intro x hx
  rw [happ] at hx
  rcases mem_updateApptById hx with h | ⟨b, hb, _, rfl⟩
  · exact ht x h
  · exact haT

theorem execute_preserves_TimesInCatalog (env : Env) (ex : Exec) (st : Store) (name : String)
    (args : Args) (h : TimesInCatalog st) : TimesInCatalog (execute env ex st name args).2.1 := by
  rcases execute_appts_delta env ex st name args with ⟨ha, _⟩ | hd | hd | hd
  · intro a hm; exact h a (ha ▸ hm)
  · exact times_book _ _ h hd
  · exact times_cancel _ _ h hd
  · exact times_modify _ _ h hd

inductive ReachableStore : Store → Prop where
  | init (users : List TblUser) :
      ReachableStore { appts := [], nextId := 1, users := users,
                       metaUserId := none, metaUserName := none }
  | step (env : Env) (ex : Exec) (name : String) (args : Args) {st : Store} :
      ReachableStore st → ReachableStore (execute env ex st name args).2.1

theorem reachable_StoreWF {st : Store} (h : ReachableStore st) : StoreWF st := by
  induction h with
  | init users => exact ⟨List.Pairwise.nil, List.nodup_nil, by simp⟩
  | step env ex name args _ ih => exact execute_preserves_StoreWF env ex _ name args ih

/-- C1: in every appointment store reachable through the tool executor's
operations (starting from an empty table), at most one scheduled appointment
exists per (date, time) pair across all users — hence also per
(user, date, time) triple — and every operation, in particular
`book_appointment` (which rejects a slot booked by anyone or a same-user
same-slot duplicate) and `modify_appointment` (which re-checks availability
excluding the appointment being modified before committing), preserves the
invariant, so reachability is closed under `execute`. -/
theorem no_double_booking_invariant (st : Store) (h : ReachableStore st) :
    NoDoubleBooking st.appts ∧
    st.appts.Pairwise (fun a b =>
      ¬(a.user_id = b.user_id ∧ a.status = "scheduled" ∧ b.status = "scheduled" ∧
        a.appointment_date = b.appointment_date ∧ a.appointment_time = b.appointment_time)) ∧
    (∀ env ex name args, ReachableStore (execute env ex st name args).2.1) := by
  have hwf := reachable_StoreWF h
  refine ⟨hwf.1, ?_, fun env ex name args => .step env ex name args h⟩
  exact List.Pairwise.imp
    (fun hR hcon => hR ⟨hcon.2.1, hcon.2.2.1, hcon.2.2.2.1, hcon.2.2.2.2⟩) hwf.1

def fetchArgs (dstr : String) : Args := [("date", .scalar (.str dstr))]

theorem fetch_slots_result (env : Env) (ex : Exec) (st : Store) (dstr : String) (d : Date)
    (hp : parse_date env.today dstr = .ok d) :
    (execute env ex st "fetch_slots" (fetchArgs dstr)).1 =
      { success := true, date := some (formatYMD d), date_display := some (formatDisplay d),
        available_slots := some (AVAILABLE_SLOTS.filter fun slot =>
          !(get_booked_slots_from_db st (formatYMD d) none).contains slot),
        booked_slots := some (get_booked_slots_from_db st (formatYMD d) none),
        message := some ("Found " ++
          toString (AVAILABLE_SLOTS.filter fun slot =>
            !(get_booked_slots_from_db st (formatYMD d) none).contains slot).length ++
          " available slots on " ++ formatYMD d) } := by
  simp [execute, toolImpl, execute_fetch_slots, fetchArgs, argGetStr, argLookup, hp,
    Bind.bind, Except.bind, Pure.pure, Except.pure]

theorem booked_subset_catalog {st : Store} (hinv : TimesInCatalog st) (D : String) :
    ∀ t ∈ get_booked_slots_from_db st D none, t ∈ AVAILABLE_SLOTS := by
  intro t ht
  simp only [get_booked_slots_from_db, List.mem_map, List.mem_filter] at ht
  obtain ⟨a, ⟨ha, _⟩, rfl⟩ := ht
  exact hinv a ha

/-- C4: on any store whose appointment times lie in the fixed slot catalog —
an invariant every executor operation preserves (first conjunct) — whenever
the requested date parses, `fetch_slots` succeeds and returns an
`available_slots` list and a `booked_slots` list that are disjoint and
together cover exactly the catalog
`{09:00, 10:00, 11:00, 14:00, 15:00, 16:00, 17:00, 18:00}`; on a fully
booked day it still succeeds, with an empty available list. -/
theorem fetch_slots_partition (env : Env) (ex : Exec) (st : Store) (dstr : String)
    (hinv : TimesInCatalog st) :
    (∀ env2 ex2 name args, TimesInCatalog (execute env2 ex2 st name args).2.1) ∧
    (∀ d, parse_date env.today dstr = .ok d →
      (execute env ex st "fetch_slots" (fetchArgs dstr)).1.success = true ∧
      ∃ av bk, (execute env ex st "fetch_slots" (fetchArgs dstr)).1.available_slots = some av ∧
        (execute env ex st "fetch_slots" (fetchArgs dstr)).1.booked_slots = some bk ∧
        (∀ t ∈ av, t ∉ bk) ∧
        (∀ t, t ∈ AVAILABLE_SLOTS ↔ t ∈ av ∨ t ∈ bk) ∧
        ((∀ t ∈ AVAILABLE_SLOTS, t ∈ bk) → av = [])) := by
  refine ⟨fun env2 ex2 name args =>
    execute_preserves_TimesInCatalog env2 ex2 st name args hinv, ?_⟩
  intro d hp
  rw [fetch_slots_result env ex st dstr d hp]
  refine ⟨rfl, _, _, rfl, rfl, ?_, ?_, ?_⟩
  · intro t ht
    rw [List.mem_filter] at ht
    simpa using ht.2
  · intro t
    constructor
    · intro htc
      by_cases hb : t ∈ get_booked_slots_from_db st (formatYMD d) none
      · exact Or.inr hb
      · exact Or.inl (List.mem_filter.mpr ⟨htc, by simpa using hb⟩)
    · intro h
      rcases h with h | h
      · exact (List.mem_filter.mp h).1
      · exact booked_subset_catalog hinv (formatYMD d) t h
  · intro hfull
    rw [List.filter_eq_nil_iff]
    intro t htc
    simp only [Bool.not_eq_true]
    simpa using hfull t htc


/-- C1, witness: the empty store is reachable; booking `tomorrow 2pm` on it
yields a reachable store that satisfies the no-double-booking invariant. -/
theorem no_double_booking_invariant_witness :
    ReachableStore (execute fixtureEnv fixtureExec fixtureStore "book_appointment"
      bookTomorrowArgs).2.1 ∧
    NoDoubleBooking (execute fixtureEnv fixtureExec fixtureStore "book_appointment"
      bookTomorrowArgs).2.1.appts := by
  have hr2 := ReachableStore.step fixtureEnv fixtureExec "book_appointment" bookTomorrowArgs
    (ReachableStore.init [])
  exact ⟨hr2, (no_double_booking_invariant _ hr2).1⟩

def c4FullStore : Store :=
  { appts := (List.range 8).map fun i =>
      { id := i + 1, user_id := 7, appointment_date := "2026-10-13",
        appointment_time := AVAILABLE_SLOTS.getD i "", status := "scheduled", purpose := "p" },
    nextId := 9, users := [], metaUserId := none, metaUserName := none }

/-- C4, witness: on a day (2026-10-13) with all eight catalog slots booked,
`fetch_slots` still succeeds and the available list is empty. -/
theorem fetch_slots_partition_witness :
    TimesInCatalog c4FullStore ∧
    (execute fixtureEnv fixtureExec c4FullStore "fetch_slots"
      (fetchArgs "2026-10-13")).1.success = true ∧
    (execute fixtureEnv fixtureExec c4FullStore "fetch_slots"
      (fetchArgs "2026-10-13")).1.available_slots = some [] := by
  have hinv : TimesInCatalog c4FullStore := by unfold TimesInCatalog; decide
  have h := (fetch_slots_partition fixtureEnv fixtureExec c4FullStore "2026-10-13" hinv).2
    ⟨2026, 10, 13⟩ (by decide)
  exact ⟨hinv, h.1, by decide⟩

theorem parse_tomorrow (today : Date) :
    parse_date today "tomorrow" = .ok (Date.addDays today 1) := rfl

theorem normalize_2pm : normalize_time "2pm" = "14:00" := rfl

theorem mem_stableInsert {α : Type} (le : α → α → Bool) (x a : α) (l : List α) :
    a ∈ stableInsert le x l ↔ a = x ∨ a ∈ l := by
  induction l with
  | nil => simp [stableInsert]
  | cons c t ih =>
    by_cases h : (le x c) = true
    · simp [stableInsert, h]
    · simp only [stableInsert, h, Bool.false_eq_true, if_false, List.mem_cons, ih]
      tauto

theorem mem_stableSort {α : Type} (le : α → α → Bool) (a : α) (l : List α) :
    a ∈ stableSort le l ↔ a ∈ l := by
  induction l with
  | nil => simp [stableSort]
  | cons c t ih => simp [stableSort, mem_stableInsert, ih]

theorem booked_contains_false_of (st : Store) (D T : String)
    (h : ∀ a ∈ st.appts, a.status = "scheduled" → a.appointment_date = D →
         a.appointment_time ≠ T) :
    (get_booked_slots_from_db st D none).contains T = false := by
  by_contra hcon
  rw [Bool.not_eq_false] at hcon
  have hmem : T ∈ get_booked_slots_from_db st D none := by simpa using hcon
  simp only [get_booked_slots_from_db, List.mem_map, List.mem_filter] at hmem
  obtain ⟨a, ⟨ha, hpred⟩, hT⟩ := hmem
  simp only [Bool.and_eq_true, beq_iff_eq, and_true] at hpred
  exact h a ha hpred.2 hpred.1 hT

theorem booked_contains_true_of (st : Store) (D T : String) (a : Appointment)
    (ha : a ∈ st.appts) (hs : a.status = "scheduled") (hd : a.appointment_date = D)
    (ht : a.appointment_time = T) :
    (get_booked_slots_from_db st D none).contains T = true := by
  have hmem : T ∈ get_booked_slots_from_db st D none := by
    simp only [get_booked_slots_from_db, List.mem_map, List.mem_filter]
    exact ⟨a, ⟨ha, by simp [hs, hd]⟩, ht⟩
  simpa using hmem

theorem user_appts_any_false (st : Store) (uid : Nat) (D T : String)
    (h : ∀ a ∈ st.appts, a.status = "scheduled" →
         ¬(a.appointment_date = D ∧ a.appointment_time = T)) :
    ((get_user_appointments_from_db st uid).any fun appt =>
      appt.date == D && appt.time == T && appt.status == "scheduled") = false := by
  rw [List.any_eq_false]
  intro x hx
  simp only [get_user_appointments_from_db, List.mem_map] at hx
  obtain ⟨a, ha, rfl⟩ := hx
  rw [mem_stableSort, List.mem_filter] at ha
  simp only [apptOutOf, Bool.and_eq_true, beq_iff_eq]
  intro hc
  exact h a ha.1 hc.2 hc.1

def c10NewAppt (env : Env) (ex : Exec) (st : Store) : Appointment :=
  { id := st.nextId, user_id := ex.user_id.getD 0,
    appointment_date := formatYMD (Date.addDays env.today 1),
    appointment_time := "14:00", status := "scheduled",
    purpose := "General appointment" }

def c10Store2 (env : Env) (ex : Exec) (st : Store) : Store :=
  { appts := st.appts ++ [c10NewAppt env ex st], nextId := st.nextId + 1,
    users := st.users, metaUserId := st.metaUserId, metaUserName := st.metaUserName }

/-- C10: booking normalization example. For an authenticated user, when no
scheduled appointment conflicts with tomorrow at 14:00, booking
{date: "tomorrow", time: "2pm"} succeeds with normalized time "14:00" and
canonical YYYY-MM-DD date; immediately repeating the identical call fails,
reporting the slot already booked. -/
theorem book_tomorrow_normalization (env : Env) (ex : Exec) (st : Store)
    (hAuth : optNatTruthy ex.user_id = true)
    (hdb : env.dbCommitError = none)
    (hfree : ∀ a ∈ st.appts, a.status = "scheduled" →
      ¬(a.appointment_date = formatYMD (Date.addDays env.today 1) ∧
        a.appointment_time = "14:00")) :
    (execute env ex st "book_appointment" bookTomorrowArgs).1.success = true ∧
    (execute env ex st "book_appointment" bookTomorrowArgs).1.time = some "14:00" ∧
    (execute env ex st "book_appointment" bookTomorrowArgs).1.date =
      some (formatYMD (Date.addDays env.today 1)) ∧
    (execute env ex (execute env ex st "book_appointment" bookTomorrowArgs).2.1
        "book_appointment" bookTomorrowArgs).1.success = false ∧
    (execute env ex (execute env ex st "book_appointment" bookTomorrowArgs).2.1
        "book_appointment" bookTomorrowArgs).1.error =
      some ("Sorry, 14:00 on " ++ formatYMD (Date.addDays env.today 1) ++
        " is already booked. Please choose another slot.") := by
  have hb := booked_contains_false_of st (formatYMD (Date.addDays env.today 1)) "14:00"
    (fun a ha hs hd ht => hfree a ha hs ⟨hd, ht⟩)
  have hb' : "14:00" ∉ get_booked_slots_from_db st (formatYMD (Date.addDays env.today 1)) none := by
    simpa using hb
  have hany := user_appts_any_false st (ex.user_id.getD 0)
    (formatYMD (Date.addDays env.today 1)) "14:00" hfree
  have hb2 : "14:00" ∈ get_booked_slots_from_db (c10Store2 env ex st)
      (formatYMD (Date.addDays env.today 1)) none := by
    have h := booked_contains_true_of (c10Store2 env ex st)
      (formatYMD (Date.addDays env.today 1)) "14:00" (c10NewAppt env ex st)
      (by simp [c10Store2]) rfl rfl rfl
    simpa using h
  simp only [c10Store2, c10NewAppt] at hb2
  simp +decide [execute, toolImpl, execute_book_appointment, bookTomorrowArgs, argGetStr, argLookup,
    get_current_user_id, hAuth, parse_tomorrow, normalize_2pm, hb', hb2, hany, hdb, mkFail,
    Bind.bind, Except.bind, Pure.pure, Except.pure]

/-- C10, witness: the theorem instantiated at the concrete fixture (empty
store, authenticated user 7, today 2026-10-12): booking tomorrow at 2pm
succeeds with normalized time, and the repeat fails. -/
theorem book_tomorrow_normalization_witness :
    optNatTruthy fixtureExec.user_id = true ∧
    fixtureEnv.dbCommitError = none ∧
    (∀ a ∈ fixtureStore.appts, a.status = "scheduled" →
      ¬(a.appointment_date = formatYMD (Date.addDays fixtureEnv.today 1) ∧
        a.appointment_time = "14:00")) ∧
    (execute fixtureEnv fixtureExec fixtureStore "book_appointment"
      bookTomorrowArgs).1.time = some "14:00" ∧
    (execute fixtureEnv fixtureExec
      (execute fixtureEnv fixtureExec fixtureStore "book_appointment" bookTomorrowArgs).2.1
      "book_appointment" bookTomorrowArgs).1.success = false :=
  ⟨by decide, rfl, by decide,
   (book_tomorrow_normalization fixtureEnv fixtureExec fixtureStore
     (by decide) rfl (by decide)).2.1,
   (book_tomorrow_normalization fixtureEnv fixtureExec fixtureStore
     (by decide) rfl (by decide)).2.2.2.1⟩

end VoiceAI
